import Mathlib

/-!
Verification of the ifrit membership engine against its specification.

The development shallowly embeds the Go sources:
  * `src/node/sort.go`    — sorted-ring `insert` and `search`;
  * `src/udp/udp.go`      — `Spread`, `mergeNotes`, `mergeAccusations`,
    `mergeCertificates`, `evalAccusation`, `evalNote`, `evalCertificate`;
  * `src/lib/node/node.go` — `AppendGossipData` and the node state.

Machine integers (Go `int`, `uint64`) are modelled as `Int`/`Nat`; the
values involved (slice indices, epochs) never overflow in the modelled
scenarios.  Fallible operations return `Option`: a `none` result of
`search` models a Go panic (out-of-range slice access).
-/

namespace Ifrit

/-! ## Ring ids and the sorted-slice operations (src/node/sort.go)

A `ringId` carries a big-integer position (`position = H(id, ringIndex)`),
and `cmpId` is `big.Int.Cmp` on the positions.  The `ringId` type and
`cmpId` live outside the provided sources, so positions are modelled as
`Int` directly. -/

/-- Modelled from the spec: `cmpId` is the numeric comparison of the two
ring positions (big integers), returning -1/0/1 like `big.Int.Cmp`.
(The `ringId` struct and its `cmpId` method are not part of the provided
sources; the spec fixes comparison to be numeric on positions.) -/
def cmpId (a b : Int) : Int :=
  if a < b then -1 else if b < a then 1 else 0

/-- `l.take i ++ x :: l.drop i`: the result of Go's
`slice = append(slice, nil); copy(slice[i:], slice[i-or-i+1 ...])`
shift followed by writing `x` at index `i`. -/
def insertAt (l : List Int) (i : Nat) (x : Int) : List Int :=
  l.take i ++ x :: l.drop i

/-- The `for` loop of `insert` in `src/node/sort.go:25-44`.  `fuel` bounds
the number of iterations; `insert` supplies `slice.length + 1`, which is
enough (the interval `[currIdx, maxIdx]` shrinks strictly each step), so
the `fuel = 0` case is unreachable from `insert`.  Slice indexing is via
`getD`; every access is in bounds for the arguments `insert` passes
(`insertLoop_spec`).  All reachable index values are nonnegative, where
Lean's integer division agrees with Go's. -/
def insertLoop (fuel : Nat) (slice : List Int) (newId : Int)
    (currIdx maxIdx : Int) : List Int × Int :=
  match fuel with
  | 0 => (slice, -1)
  | fuel + 1 =>
    if currIdx ≥ maxIdx then
      if cmpId (slice.getD currIdx.toNat 0) newId = -1 then
        (insertAt slice (currIdx.toNat + 1) newId, currIdx + 1)
      else
        (insertAt slice currIdx.toNat newId, currIdx)
    else
      let mid := (currIdx + maxIdx) / 2
      if cmpId (slice.getD mid.toNat 0) newId = -1 then
        insertLoop fuel slice newId (mid + 1) maxIdx
      else
        insertLoop fuel slice newId currIdx (mid - 1)

/-- `insert` from `src/node/sort.go:15-45`: binary-search insertion into a
sorted ring slice, returning the new slice and the index where `newId`
was placed. -/
def insert (slice : List Int) (newId : Int) : List Int × Int :=
  let maxIdx : Int := (slice.length : Int) - 1
  if maxIdx = -1 then (slice ++ [newId], 0)
  else insertLoop (slice.length + 1) slice newId 0 maxIdx

/-- `errIdNotFound` from `src/node/sort.go:11`. -/
def errIdNotFound : String := "ring id not found"

/-- The `for` loop of `search` in `src/node/sort.go:53-73`.  A `none`
result models a Go panic: the loop accessed an out-of-range index
(`slice[currIdx]` or `slice[mid]`), which is exactly what happens on an
empty slice.  `some (i, none)` is a successful `return i, nil`;
`some (-1, some errIdNotFound)` is `return -1, errIdNotFound`.  `fuel`
bounds iterations; `search` passes `slice.length + 1`, which suffices. -/
def searchLoop (fuel : Nat) (slice : List Int) (searchId : Int)
    (currIdx maxIdx : Int) : Option (Int × Option String) :=
  match fuel with
  | 0 => none
  | fuel + 1 =>
    if currIdx ≥ maxIdx then
      match slice[currIdx.toNat]? with
      | none => none
      | some v =>
        if cmpId v searchId = 0 then some (currIdx, none)
        else some (-1, some errIdNotFound)
    else
      let mid := (currIdx + maxIdx) / 2
      match slice[mid.toNat]? with
      | none => none
      | some v =>
        let cmp := cmpId v searchId
        if cmp = -1 then searchLoop fuel slice searchId (mid + 1) maxIdx
        else if cmp = 1 then searchLoop fuel slice searchId currIdx (mid - 1)
        else some (mid, none)

/-- `search` from `src/node/sort.go:48-74`.  Note the Go code has no
emptiness guard: with `length = 0` it enters the loop with
`currIdx = 0 ≥ maxIdx = -1` and dereferences `slice[0]` (a panic,
modelled as `none`). -/
def search (slice : List Int) (searchId : Int) : Option (Int × Option String) :=
  searchLoop (slice.length + 1) slice searchId 0 ((slice.length : Int) - 1)

/-- Modelled from the spec: `remove` ("binary-search then delete; fails
with `IdNotFound` if absent", spec §4.1) is not among the provided
sources.  It searches with `search` and deletes the found index; a panic
of `search` propagates. -/
def removeId (slice : List Int) (x : Int) : Option (List Int × Option String) :=
  match search slice x with
  | none => none
  | some (_, some e) => some (slice, some e)
  | some (i, none) => some (slice.eraseIdx i.toNat, none)

/-! ### Lemmas about `cmpId` -/

lemma cmpId_eq_neg_one {a b : Int} : cmpId a b = -1 ↔ a < b := by
  unfold cmpId
  split <;> rename_i h
  · simp [h]
  · split <;> rename_i h2 <;> simp <;> omega

lemma cmpId_eq_one {a b : Int} : cmpId a b = 1 ↔ b < a := by
  unfold cmpId
  split <;> rename_i h
  · constructor <;> intro h2 <;> omega
  · split <;> rename_i h2 <;> simp <;> omega

lemma cmpId_eq_zero {a b : Int} : cmpId a b = 0 ↔ a = b := by
  unfold cmpId
  split <;> rename_i h
  · constructor <;> intro h2 <;> omega
  · split <;> rename_i h2 <;> simp <;> omega

/-! ### Lemmas about `searchLoop` and `search` -/

lemma getElem_idx_congr {l : List Int} {i j : Nat} (hi : i < l.length)
    (hj : j < l.length) (h : i = j) : l[i] = l[j] := by
  subst h; rfl

/-- Every access `searchLoop` makes is in bounds once the interval is
within the slice, so the loop returns a result (no panic). -/
lemma searchLoop_total (slice : List Int) (x : Int) :
    ∀ (fuel : Nat) (c m : Int), (m + 1 - c).toNat < fuel → 0 ≤ c →
      c ≤ (slice.length : Int) - 1 → m ≤ (slice.length : Int) - 1 →
      (searchLoop fuel slice x c m).isSome := by
  intro fuel
  induction fuel with
  | zero => intro c m hfuel _ _ _; omega
  | succ fuel ih =>
    intro c m hfuel hc0 hcL hmL
    rw [searchLoop]
    by_cases hcm : c ≥ m
    · rw [if_pos hcm]
      have hlt : c.toNat < slice.length := by omega
      rw [List.getElem?_eq_getElem hlt]
      dsimp only
      split <;> simp
    · rw [if_neg hcm]
      have hcm2 : c < m := lt_of_not_ge hcm
      have hmid1 : c ≤ (c + m) / 2 := by omega
      have hmid2 : (c + m) / 2 ≤ m - 1 := by omega
      have hlt : ((c + m) / 2).toNat < slice.length := by omega
      simp only
      rw [List.getElem?_eq_getElem hlt]
      dsimp only
      by_cases h1 : cmpId slice[((c + m) / 2).toNat] x = -1
      · rw [if_pos h1]
        exact ih _ _ (by omega) (by omega) (by omega) hmL
      · rw [if_neg h1]
        by_cases h2 : cmpId slice[((c + m) / 2).toNat] x = 1
        · rw [if_pos h2]
          exact ih _ _ (by omega) hc0 hcL (by omega)
        · rw [if_neg h2]; simp

/-- On a strictly sorted slice, `searchLoop` finds the (unique) index
holding the target, as long as that index lies in the search interval. -/
lemma searchLoop_found (slice : List Int) (x : Int)
    (hs : slice.Pairwise (· < ·)) :
    ∀ (fuel : Nat) (c m : Int) (j : Nat) (hj : j < slice.length),
      (m + 1 - c).toNat < fuel → 0 ≤ c → m ≤ (slice.length : Int) - 1 →
      slice[j] = x → c ≤ (j : Int) → (j : Int) ≤ m →
      searchLoop fuel slice x c m = some ((j : Int), none) := by
  intro fuel
  induction fuel with
  | zero => intro c m j hj hfuel _ _ _ _ _; omega
  | succ fuel ih =>
    intro c m j hj hfuel hc0 hmL hjx hcj hjm
    rw [searchLoop]
    by_cases hcm : c ≥ m
    · rw [if_pos hcm]
      have hcj2 : c = (j : Int) := by omega
      have hlt : c.toNat < slice.length := by omega
      rw [List.getElem?_eq_getElem hlt]
      dsimp only
      have hcv : slice[c.toNat] = x := by
        rw [getElem_idx_congr hlt hj (by omega), hjx]
      rw [if_pos (cmpId_eq_zero.2 hcv), hcj2]
    · rw [if_neg hcm]
      have hcm2 : c < m := lt_of_not_ge hcm
      have hmid1 : c ≤ (c + m) / 2 := by omega
      have hmid2 : (c + m) / 2 ≤ m - 1 := by omega
      have hlt : ((c + m) / 2).toNat < slice.length := by omega
      simp only
      rw [List.getElem?_eq_getElem hlt]
      dsimp only
      by_cases h1 : cmpId slice[((c + m) / 2).toNat] x = -1
      · rw [if_pos h1]
        have hvx : slice[((c + m) / 2).toNat] < x := cmpId_eq_neg_one.1 h1
        have hjgt : (c + m) / 2 < (j : Int) := by
          by_contra hle
          push_neg at hle
          rcases lt_or_eq_of_le hle with hlt2 | heq
          · have : slice[j] < slice[((c + m) / 2).toNat] :=
              List.pairwise_iff_getElem.1 hs j ((c + m) / 2).toNat hj hlt (by omega)
            omega
          · have heq2 : slice[j] = slice[((c + m) / 2).toNat] :=
              getElem_idx_congr hj hlt (by omega)
            omega
        exact ih _ _ j hj (by omega) (by omega) hmL hjx (by omega) hjm
      · rw [if_neg h1]
        by_cases h2 : cmpId slice[((c + m) / 2).toNat] x = 1
        · rw [if_pos h2]
          have hvx : x < slice[((c + m) / 2).toNat] := cmpId_eq_one.1 h2
          have hjlt : (j : Int) < (c + m) / 2 := by
            by_contra hle
            push_neg at hle
            rcases lt_or_eq_of_le hle with hlt2 | heq
            · have : slice[((c + m) / 2).toNat] < slice[j] :=
                List.pairwise_iff_getElem.1 hs ((c + m) / 2).toNat j hlt hj (by omega)
              omega
            · have heq2 : slice[j] = slice[((c + m) / 2).toNat] :=
                getElem_idx_congr hj hlt (by omega)
              omega
          exact ih _ _ j hj (by omega) hc0 (by omega) hjx hcj (by omega)
        · rw [if_neg h2]
          have hvx : slice[((c + m) / 2).toNat] = x := by
            rcases Int.lt_trichotomy slice[((c + m) / 2).toNat] x with h | h | h
            · exact absurd (cmpId_eq_neg_one.2 h) h1
            · exact h
            · exact absurd (cmpId_eq_one.2 h) h2
          have hjeq : j = ((c + m) / 2).toNat := by
            by_contra hne
            rcases Nat.lt_or_ge j ((c + m) / 2).toNat with hlt2 | hge
            · have : slice[j] < slice[((c + m) / 2).toNat] :=
                List.pairwise_iff_getElem.1 hs j ((c + m) / 2).toNat hj hlt hlt2
              omega
            · have hgt : ((c + m) / 2).toNat < j := by omega
              have : slice[((c + m) / 2).toNat] < slice[j] :=
                List.pairwise_iff_getElem.1 hs ((c + m) / 2).toNat j hlt hj hgt
              omega
          rw [show ((c + m) / 2 : Int) = (j : Int) by omega]

/-- `searchLoop` reports `errIdNotFound` whenever the target does not
occur in the slice (and the interval is in bounds). -/
lemma searchLoop_notFound (slice : List Int) (x : Int) (hx : x ∉ slice) :
    ∀ (fuel : Nat) (c m : Int), (m + 1 - c).toNat < fuel → 0 ≤ c →
      c ≤ (slice.length : Int) - 1 → m ≤ (slice.length : Int) - 1 →
      searchLoop fuel slice x c m = some (-1, some errIdNotFound) := by
  intro fuel
  induction fuel with
  | zero => intro c m hfuel _ _ _; omega
  | succ fuel ih =>
    intro c m hfuel hc0 hcL hmL
    rw [searchLoop]
    by_cases hcm : c ≥ m
    · rw [if_pos hcm]
      have hlt : c.toNat < slice.length := by omega
      rw [List.getElem?_eq_getElem hlt]
      dsimp only
      have hne : slice[c.toNat] ≠ x := by
        intro heq
        exact hx (heq ▸ List.getElem_mem hlt)
      rw [if_neg (fun h => hne (cmpId_eq_zero.1 h))]
    · rw [if_neg hcm]
      have hcm2 : c < m := lt_of_not_ge hcm
      have hmid1 : c ≤ (c + m) / 2 := by omega
      have hmid2 : (c + m) / 2 ≤ m - 1 := by omega
      have hlt : ((c + m) / 2).toNat < slice.length := by omega
      simp only
      rw [List.getElem?_eq_getElem hlt]
      dsimp only
      have hne : slice[((c + m) / 2).toNat] ≠ x := by
        intro heq
        exact hx (heq ▸ List.getElem_mem hlt)
      by_cases h1 : cmpId slice[((c + m) / 2).toNat] x = -1
      · rw [if_pos h1]
        exact ih _ _ (by omega) (by omega) (by omega) hmL
      · rw [if_neg h1]
        rw [if_pos ?_]
        · exact ih _ _ (by omega) hc0 hcL (by omega)
        · rcases Int.lt_trichotomy slice[((c + m) / 2).toNat] x with h | h | h
          · exact absurd (cmpId_eq_neg_one.2 h) h1
          · exact absurd h hne
          · exact cmpId_eq_one.2 h

/-- `search` is total (performs only in-bounds accesses) on non-empty
slices. -/
lemma search_total (slice : List Int) (x : Int) (h : slice ≠ []) :
    (search slice x).isSome := by
  have hlen : 0 < slice.length := List.length_pos.2 h
  exact searchLoop_total slice x _ 0 _ (by omega) (by omega) (by omega) (by omega)

/-- On a strictly sorted slice, `search` returns the index of the target
when present. -/
lemma search_found (slice : List Int) (x : Int) (hs : slice.Pairwise (· < ·))
    (j : Nat) (hj : j < slice.length) (hjx : slice[j] = x) :
    search slice x = some ((j : Int), none) := by
  exact searchLoop_found slice x hs _ 0 _ j hj (by omega) (by omega) (by omega)
    hjx (by omega) (by omega)

/-- On a non-empty slice, `search` reports `errIdNotFound` when the
target is absent. -/
lemma search_notFound (slice : List Int) (x : Int) (hx : x ∉ slice)
    (h : slice ≠ []) :
    search slice x = some (-1, some errIdNotFound) := by
  have hlen : 0 < slice.length := List.length_pos.2 h
  exact searchLoop_notFound slice x hx _ 0 _ (by omega) (by omega) (by omega)
    (by omega)

/-! ### Lemmas about `insertLoop` and `insert` -/

/-- On a strictly sorted slice, `insertLoop` inserts `newId` at a
position `pos` such that everything before `pos` is strictly below
`newId` and everything from `pos` on (in the original slice) is at least
`newId`. -/
lemma insertLoop_spec (slice : List Int) (x : Int)
    (hs : slice.Pairwise (· < ·)) :
    ∀ (fuel : Nat) (c m : Int), (m + 1 - c).toNat < fuel → 0 ≤ c →
      c ≤ (slice.length : Int) - 1 → m ≤ (slice.length : Int) - 1 →
      c ≤ m + 1 →
      (∀ (i : Nat) (hi : i < slice.length), (i : Int) < c → slice[i] < x) →
      (∀ (i : Nat) (hi : i < slice.length), m < (i : Int) → x ≤ slice[i]) →
      ∃ pos : Nat, insertLoop fuel slice x c m = (insertAt slice pos x, (pos : Int)) ∧
        pos ≤ slice.length ∧
        (∀ (i : Nat) (hi : i < slice.length), i < pos → slice[i] < x) ∧
        (∀ (i : Nat) (hi : i < slice.length), pos ≤ i → x ≤ slice[i]) := by
  intro fuel
  induction fuel with
  | zero => intro c m hfuel _ _ _ _ _ _; omega
  | succ fuel ih =>
    intro c m hfuel hc0 hcL hmL hcm1 hlow hhigh
    rw [insertLoop]
    by_cases hcm : c ≥ m
    · rw [if_pos hcm]
      have hlt : c.toNat < slice.length := by omega
      rw [List.getD_eq_getElem slice 0 hlt]
      by_cases hv : cmpId slice[c.toNat] x = -1
      · rw [if_pos hv]
        have hvx : slice[c.toNat] < x := cmpId_eq_neg_one.1 hv
        refine ⟨c.toNat + 1, ?_, by omega, ?_, ?_⟩
        · rw [show ((c.toNat + 1 : Nat) : Int) = c + 1 by omega]
        · intro i hi hip
          rcases Nat.lt_or_ge i c.toNat with h2 | h2
          · exact hlow i hi (by omega)
          · have : i = c.toNat := by omega
            rw [getElem_idx_congr hi hlt this]
            exact hvx
        · intro i hi hip
          exact hhigh i hi (by omega)
      · rw [if_neg hv]
        have hvx : x ≤ slice[c.toNat] := by
          have := cmpId_eq_neg_one (a := slice[c.toNat]) (b := x)
          omega
        refine ⟨c.toNat, ?_, by omega, ?_, ?_⟩
        · rw [show ((c.toNat : Nat) : Int) = c by omega]
        · intro i hi hip
          exact hlow i hi (by omega)
        · intro i hi hip
          rcases Nat.lt_or_ge c.toNat i with h2 | h2
          · exact hhigh i hi (by omega)
          · have : i = c.toNat := by omega
            rw [getElem_idx_congr hi hlt this]
            exact hvx
    · rw [if_neg hcm]
      have hcm2 : c < m := lt_of_not_ge hcm
      have hmid1 : c ≤ (c + m) / 2 := by omega
      have hmid2 : (c + m) / 2 ≤ m - 1 := by omega
      have hlt : ((c + m) / 2).toNat < slice.length := by omega
      simp only
      rw [List.getD_eq_getElem slice 0 hlt]
      by_cases hv : cmpId slice[((c + m) / 2).toNat] x = -1
      · rw [if_pos hv]
        have hvx : slice[((c + m) / 2).toNat] < x := cmpId_eq_neg_one.1 hv
        refine ih _ _ (by omega) (by omega) (by omega) hmL (by omega) ?_ hhigh
        intro i hi hip
        rcases Nat.lt_or_ge i ((c + m) / 2).toNat with h2 | h2
        · calc slice[i] < slice[((c + m) / 2).toNat] :=
                List.pairwise_iff_getElem.1 hs i ((c + m) / 2).toNat hi hlt h2
            _ < x := hvx
        · have : i = ((c + m) / 2).toNat := by omega
          rw [getElem_idx_congr hi hlt this]
          exact hvx
      · rw [if_neg hv]
        have hvx : x ≤ slice[((c + m) / 2).toNat] := by
          have := cmpId_eq_neg_one (a := slice[((c + m) / 2).toNat]) (b := x)
          omega
        refine ih _ _ (by omega) hc0 hcL (by omega) (by omega) hlow ?_
        intro i hi hip
        rcases Nat.lt_or_ge ((c + m) / 2).toNat i with h2 | h2
        · exact le_of_lt (lt_of_le_of_lt hvx
            (List.pairwise_iff_getElem.1 hs ((c + m) / 2).toNat i hlt hi h2))
        · have : i = ((c + m) / 2).toNat := by omega
          rw [getElem_idx_congr hi hlt this]
          exact hvx

/-- Top-level specification of `insert` on a strictly sorted slice. -/
lemma insert_spec (slice : List Int) (x : Int)
    (hs : slice.Pairwise (· < ·)) :
    ∃ pos : Nat, insert slice x = (insertAt slice pos x, (pos : Int)) ∧
      pos ≤ slice.length ∧
      (∀ (i : Nat) (hi : i < slice.length), i < pos → slice[i] < x) ∧
      (∀ (i : Nat) (hi : i < slice.length), pos ≤ i → x ≤ slice[i]) := by
  rw [insert]
  by_cases hempty : ((slice.length : Int) - 1) = -1
  · have h0 : slice.length = 0 := by omega
    have hnil : slice = [] := List.length_eq_zero.1 h0
    subst hnil
    rw [if_pos (by omega)]
    exact ⟨0, rfl, by omega, by simp, by simp⟩
  · rw [if_neg hempty]
    have hlen : 1 ≤ slice.length := by omega
    exact insertLoop_spec slice x hs _ 0 _ (by omega) (by omega) (by omega)
      (by omega) (by omega) (by intro i hi h; omega) (by intro i hi h; omega)

/-- `insertAt` is a permutation of consing. -/
lemma insertAt_perm (slice : List Int) (pos : Nat) (x : Int) :
    (insertAt slice pos x).Perm (x :: slice) := by
  have h := List.take_append_drop pos slice
  unfold insertAt
  conv_rhs => rw [← h]
  exact List.perm_middle

lemma insertAt_length (slice : List Int) (pos : Nat) (x : Int) :
    (insertAt slice pos x).length = slice.length + 1 := by
  have := (insertAt_perm slice pos x).length_eq
  simpa using this

/-- The inserted element sits at the reported index. -/
lemma insertAt_getElem_pos (slice : List Int) (pos : Nat) (x : Int)
    (hpos : pos ≤ slice.length) :
    (insertAt slice pos x)[pos]? = some x := by
  unfold insertAt
  have hlen : (slice.take pos).length = pos := by
    rw [List.length_take]; omega
  rw [List.getElem?_append_right (by omega), hlen]
  simp

/-- `insertAt` at a boundary position preserves strict sortedness when
the inserted element separates the two halves strictly. -/
lemma insertAt_pairwise (slice : List Int) (pos : Nat) (x : Int)
    (hs : slice.Pairwise (· < ·))
    (hpos : pos ≤ slice.length)
    (hlow : ∀ (i : Nat) (hi : i < slice.length), i < pos → slice[i] < x)
    (hhigh : ∀ (i : Nat) (hi : i < slice.length), pos ≤ i → x < slice[i]) :
    (insertAt slice pos x).Pairwise (· < ·) := by
  have hlent : (slice.take pos).length = pos := by
    rw [List.length_take]; omega
  unfold insertAt
  rw [List.pairwise_append]
  refine ⟨hs.sublist (List.take_sublist _ _), ?_, ?_⟩
  · rw [List.pairwise_cons]
    refine ⟨?_, hs.sublist (List.drop_sublist _ _)⟩
    intro b hb
    rcases List.getElem_of_mem hb with ⟨k, hk, hbk⟩
    have hk2 : pos + k < slice.length := by
      have := List.length_drop pos slice
      omega
    have hdk : (slice.drop pos)[k] = slice[pos + k] := List.getElem_drop slice
    rw [← hbk, hdk]
    exact hhigh (pos + k) hk2 (by omega)
  · intro a ha b hb
    rcases List.getElem_of_mem ha with ⟨k, hk, hak⟩
    have hkp : k < pos := by omega
    have hk2 : k < slice.length := by omega
    have hax : a < x := by
      rw [← hak]
      have htk : (slice.take pos)[k] = slice[k] := List.getElem_take slice
      rw [htk]
      exact hlow k hk2 hkp
    rcases List.mem_cons.1 hb with hbx | hbd
    · omega
    · rcases List.getElem_of_mem hbd with ⟨k2, hk21, hbk2⟩
      have hk22 : pos + k2 < slice.length := by
        have := List.length_drop pos slice
        omega
      have hdk2 : (slice.drop pos)[k2] = slice[pos + k2] := List.getElem_drop slice
      have hbx2 : x < b := by
        rw [← hbk2, hdk2]
        exact hhigh (pos + k2) hk22 (by omega)
      omega

/-- A sequence of `insert` operations, as performed by `ring.add`. -/
def insertAll (slice : List Int) (ids : List Int) : List Int :=
  ids.foldl (fun s i => (insert s i).1) slice

/-- A single `insert` of a fresh id keeps the ring strictly sorted, and
the resulting slice is the old one plus the new id. -/
lemma insert_fresh (slice : List Int) (x : Int)
    (hs : slice.Pairwise (· < ·)) (hfresh : x ∉ slice) :
    (insert slice x).1.Pairwise (· < ·) ∧ (insert slice x).1.Perm (x :: slice) := by
  obtain ⟨pos, heq, hpos, hlow, hhigh⟩ := insert_spec slice x hs
  rw [heq]
  refine ⟨?_, insertAt_perm slice pos x⟩
  refine insertAt_pairwise slice pos x hs hpos hlow ?_
  intro i hi hip
  rcases lt_or_eq_of_le (hhigh i hi hip) with h | h
  · exact h
  · exact absurd (h ▸ List.getElem_mem hi) hfresh

/-- Removing the element just inserted at `pos` restores the slice. -/
lemma insertAt_eraseIdx (slice : List Int) (pos : Nat) (x : Int)
    (hpos : pos ≤ slice.length) :
    (insertAt slice pos x).eraseIdx pos = slice := by
  unfold insertAt
  rw [List.eraseIdx_eq_take_drop_succ]
  have hlen : (slice.take pos).length = pos := by
    rw [List.length_take]; omega
  have h1 : (slice.take pos ++ x :: slice.drop pos).take pos = slice.take pos := by
    rw [List.take_append_of_le_length (by omega), List.take_take,
      Nat.min_self]
  have h2 : (slice.take pos ++ x :: slice.drop pos).drop (pos + 1) = slice.drop pos := by
    have := @List.drop_append _ (slice.take pos) (x :: slice.drop pos) 1
    rw [hlen] at this
    rw [this]
    rfl
  rw [h1, h2, List.take_append_drop]

/-! ## Claim theorems for the ring slice operations -/

/-- C7 counterexample: inserting an id already on the ring duplicates it.
Starting from the sorted ring `[1,3,5]`, a single `insert` of `3`
produces `[1,3,3,5]`, which contains `3` twice and is not strictly
increasing — refuting the claim as stated for arbitrary insert
sequences. -/
theorem ring_insert_duplicate_cex :
    insertAll [1, 3, 5] [3] = [1, 3, 3, 5] ∧
      ¬ (insertAll [1, 3, 5] [3]).Nodup ∧
      ¬ (insertAll [1, 3, 5] [3]).Pairwise (· < ·) := by
  refine ⟨by decide, by decide, by decide⟩

/-- C7 (amended): for every strictly sorted ring slice and every sequence
of `insert` operations whose ids are pairwise distinct and not already on
the ring, the resulting slice is strictly increasing and contains each id
at most once.  (The code does not guard against duplicates: inserting an id
already present stores it twice, see `ring_insert_duplicate_cex`.) -/
theorem ring_insertAll_sorted_nodup (slice ids : List Int)
    (hs : slice.Pairwise (· < ·)) (hnodup : ids.Nodup)
    (hfresh : ∀ i ∈ ids, i ∉ slice) :
    (insertAll slice ids).Pairwise (· < ·) ∧ (insertAll slice ids).Nodup := by
  suffices h : (insertAll slice ids).Pairwise (· < ·) by
    exact ⟨h, h.imp ne_of_lt⟩
  induction ids generalizing slice with
  | nil => exact hs
  | cons i ids ih =>
    have hmem : i ∈ i :: ids := List.mem_cons_self i ids
    obtain ⟨hsorted, hperm⟩ := insert_fresh slice i hs (hfresh i hmem)
    refine ih (insert slice i).1 hsorted (hnodup.of_cons) ?_
    intro j hj
    intro hjmem
    rcases List.mem_cons.1 ((hperm.mem_iff).1 hjmem) with hji | hjs
    · exact (List.nodup_cons.1 hnodup).1 (hji ▸ hj)
    · exact hfresh j (List.mem_cons_of_mem i hj) hjs

/-- C7 witness. -/
theorem ring_insertAll_sorted_nodup_witness :
    (insertAll [10, 30] [20, 5, 40]).Pairwise (· < ·) ∧
      (insertAll [10, 30] [20, 5, 40]).Nodup :=
  ring_insertAll_sorted_nodup [10, 30] [20, 5, 40] (by decide) (by decide)
    (by decide)

/-- `insert` of a fresh id, packaged: the explicit result together with
strict sortedness of the new slice. -/
lemma insert_fresh_full (slice : List Int) (x : Int)
    (hs : slice.Pairwise (· < ·)) (hfresh : x ∉ slice) :
    ∃ pos : Nat, insert slice x = (insertAt slice pos x, (pos : Int)) ∧
      pos ≤ slice.length ∧ (insertAt slice pos x).Pairwise (· < ·) := by
  obtain ⟨pos, heq, hpos, hlow, hhigh⟩ := insert_spec slice x hs
  refine ⟨pos, heq, hpos, ?_⟩
  refine insertAt_pairwise slice pos x hs hpos hlow ?_
  intro i hi hip
  rcases lt_or_eq_of_le (hhigh i hi hip) with h | h
  · exact h
  · exact absurd (h ▸ List.getElem_mem hi) hfresh

/-- C8 counterexample: on the empty ring, `insert 5` then `remove 5`
leaves the empty slice, and `search` on the empty slice panics (an
out-of-range access, modelled `none`) instead of returning
`errIdNotFound` — refuting the remove-then-search half of the claim. -/
theorem ring_remove_empty_search_cex :
    insert ([] : List Int) 5 = ([5], 0) ∧
      removeId [5] 5 = some ([], none) ∧
      search ([] : List Int) 5 = none ∧
      search ([] : List Int) 5 ≠ some (-1, some errIdNotFound) := by
  refine ⟨by decide, by decide, by decide, by decide⟩

/-- C8 (amended): on a strictly sorted ring slice, inserting a fresh id
and then searching for it returns exactly the index `insert` reported
(with nil error); removing that id restores the original slice, and —
provided the remaining slice is non-empty — searching for the removed id
returns `errIdNotFound`.  (If the removal empties the ring, `search`
panics instead: see `ring_remove_empty_search_cex` and
`ring_search_totality`.) -/
theorem ring_insert_search_remove (slice : List Int) (x : Int)
    (hs : slice.Pairwise (· < ·)) (hfresh : x ∉ slice) :
    search (insert slice x).1 x = some ((insert slice x).2, none) ∧
      removeId (insert slice x).1 x = some (slice, none) ∧
      (slice ≠ [] → search slice x = some (-1, some errIdNotFound)) := by
  obtain ⟨pos, heq, hpos, hsorted⟩ := insert_fresh_full slice x hs hfresh
  have hlen : pos < (insertAt slice pos x).length := by
    rw [insertAt_length]; omega
  have hget : (insertAt slice pos x)[pos] = x := by
    have h1 := insertAt_getElem_pos slice pos x hpos
    have h2 := List.getElem?_eq_getElem hlen
    rw [h1] at h2
    exact Option.some_injective _ h2.symm
  have hsearch : search (insertAt slice pos x) x = some ((pos : Int), none) :=
    search_found (insertAt slice pos x) x hsorted pos hlen hget
  refine ⟨?_, ?_, ?_⟩
  · rw [heq]
    exact hsearch
  · rw [heq]
    unfold removeId
    rw [hsearch]
    dsimp only
    rw [show ((pos : Int)).toNat = pos by omega]
    rw [insertAt_eraseIdx slice pos x hpos]
  · intro hne
    exact search_notFound slice x hfresh hne

/-- C8 witness. -/
theorem ring_insert_search_remove_witness :
    search (insert [1, 5] 3).1 3 = some ((insert [1, 5] 3).2, none) ∧
      removeId (insert [1, 5] 3).1 3 = some ([1, 5], none) ∧
      (([1, 5] : List Int) ≠ [] → search [1, 5] 3 = some (-1, some errIdNotFound)) :=
  ring_insert_search_remove [1, 5] 3 (by decide) (by decide)

/-- C9 (confirmed): on the empty ring slice `search` immediately performs
the out-of-range access `slice[0]` (modelled as the `none`/panic result),
while on every non-empty slice all accesses are in bounds and `search`
returns a result — so `search` is total exactly under the precondition
that the slice is non-empty. -/
theorem ring_search_totality :
    (∀ x : Int, search ([] : List Int) x = none) ∧
      (∀ (slice : List Int) (x : Int), slice ≠ [] → (search slice x).isSome) := by
  constructor
  · intro x
    rfl
  · intro slice x h
    exact search_total slice x h

/-- C9 witness. -/
theorem ring_search_totality_witness :
    search ([] : List Int) 2 = none ∧ (search [5] 3).isSome :=
  ⟨ring_search_totality.1 2, ring_search_totality.2 [5] 3 (by decide)⟩

/-! ## The node state (src/udp/udp.go, src/lib/node/node.go)

Peer ids (certificate `SubjectKeyId` byte strings), addresses, public
keys and certificate bodies are modelled as `Nat`.  ECDSA signature
verification (`validateSignature` over the `fmt`-printed payload) is
modelled as an abstract boolean predicate taken as a parameter: the
claims under study quantify over its outcome.  Likewise the ring-derived
predicates `isHigherRank` and `isPrev` (defined in parts of the
repository outside `src/`) are parameters, and the claims that depend on
their meaning instantiate them from the spec (see `rankBetter`). -/

/-- A peer certificate: subject key id, locality address, public key and
an opaque body (`Raw`). -/
structure Cert where
  id : Nat
  addr : Nat
  publicKey : Nat
  raw : Nat
deriving Repr, DecidableEq

/-- A stored note (`udp.go:359-366`): this code version keeps
`{peerId, epoch, signature}` (no mask). -/
structure note where
  peerId : Nat
  epoch : Nat
  sigR : Int
  sigS : Int
deriving Repr, DecidableEq

/-- A stored accusation (`udp.go:300-308`): `{peerId, epoch, accuser,
signature}` — note there is no ring number in this code version. -/
structure accusation where
  peerId : Nat
  epoch : Nat
  accuser : Nat
  sigR : Int
  sigS : Int
deriving Repr, DecidableEq

/-- A remote peer as held in the view: certificate data plus the current
note and (at most one) accusation.  The single `accusation? : Option`
field mirrors the single `p.setAccusation/p.getAccusation` slot in the
code. -/
structure Peer where
  id : Nat
  addr : Nat
  publicKey : Nat
  cert : Cert
  recentNote : Option note
  accusation? : Option accusation
deriving Repr, DecidableEq

/-- A wire note (`gossip.Note`): id, epoch, signature. -/
structure NoteMsg where
  id : Nat
  epoch : Nat
  sigR : Int
  sigS : Int
deriving Repr, DecidableEq

/-- A wire accusation (`gossip.Accusation`): accused, accuser, epoch,
signature. -/
structure AccMsg where
  accused : Nat
  accuser : Nat
  epoch : Nat
  sigR : Int
  sigS : Int
deriving Repr, DecidableEq

/-- A gossip message (`gossip.GossipMsg`), restricted to the fields
`Spread` reads: certificates, notes, accusations.  (`Data` is carried on
the wire but never read by this version of `Spread`.) -/
structure GossipMsg where
  certificates : List Cert
  notes : List NoteMsg
  accusations : List AccMsg
deriving Repr, DecidableEq

/-- The node state touched by the functions under study.
`peers` is the view map (`viewMap`); `live` holds the keys of the live
map.  Modelled from the spec: the live map shares peer records with the
view (`liveMap ⊆ viewMap`, spec §8 invariant 1), so it is represented as
the set of live keys over the single `peers` store, which matches the
Go maps sharing `*peer` pointers.  `timeouts` holds the keys of
`timeoutMap`.  `rebuttals` counts invocations of
`getProtocol().Rebuttal` (spec §4.3: resign the local note and schedule
immediate gossip); `localNoteEpoch` is the epoch the local note was last
signed with. -/
structure NodeState where
  localId : Nat
  localAddr : Nat
  currentEpoch : Nat
  localNoteEpoch : Nat
  rebuttals : Nat
  peers : List Peer
  live : List Nat
  timeouts : List Nat
  gossipData : List (Nat × Nat)
deriving Repr, DecidableEq

/-- `getViewPeer` (viewMap lookup by key). -/
def getViewPeer (s : NodeState) (k : Nat) : Option Peer :=
  s.peers.find? (fun p => p.id == k)

/-- `viewPeerExist`. -/
def viewPeerExist (s : NodeState) (k : Nat) : Bool :=
  (getViewPeer s k).isSome

/-- `getLivePeer` (liveMap lookup): the peer record is shared with the
view, so a live lookup is a view lookup guarded by live membership. -/
def getLivePeer (s : NodeState) (k : Nat) : Option Peer :=
  if s.live.contains k then getViewPeer s k else none

/-- `addViewPeer`. -/
def addViewPeer (s : NodeState) (p : Peer) : NodeState :=
  { s with peers := s.peers ++ [p] }

/-- Modelled from the spec: `addLivePeer` ("re-add to live set",
spec §4.2/§4.3) marks the key live; the record itself stays in `peers`. -/
def addLivePeerId (s : NodeState) (k : Nat) : NodeState :=
  { s with live := if s.live.contains k then s.live else s.live ++ [k] }

/-- Modelled from the spec: `timerExist` — membership in `timeoutMap`. -/
def timerExist (s : NodeState) (k : Nat) : Bool :=
  s.timeouts.contains k

/-- Modelled from the spec: `startTimer` creates a timeout entry for the
accused key (spec §4.5). -/
def startTimer (s : NodeState) (k : Nat) : NodeState :=
  { s with timeouts := s.timeouts ++ [k] }

/-- Modelled from the spec: `deleteTimeout` clears the entry
(spec §4.5: "If a rebuttal arrives first, the timeout entry is cleared
silently"). -/
def deleteTimeout (s : NodeState) (k : Nat) : NodeState :=
  { s with timeouts := s.timeouts.filter (fun t => t ≠ k) }

/-- Update every view record with the given key (the Go maps hold
pointers, so mutating the found `*peer` is visible in both maps). -/
def updPeers (s : NodeState) (k : Nat) (f : Peer → Peer) : NodeState :=
  { s with peers := s.peers.map (fun q => if q.id == k then f q else q) }

/-- `p.setNote`. -/
def setPeerNote (s : NodeState) (k : Nat) (nt : note) : NodeState :=
  updPeers s k (fun q => { q with recentNote := some nt })

/-- `p.setAccusation` (modelled as always succeeding; the error return in
the Go code is not taken in the modelled paths). -/
def setPeerAccusation (s : NodeState) (k : Nat) (a : accusation) : NodeState :=
  updPeers s k (fun q => { q with accusation? := some a })

/-- `p.removeAccusation`. -/
def removePeerAccusation (s : NodeState) (k : Nat) : NodeState :=
  updPeers s k (fun q => { q with accusation? := none })

/-- `newPeer(nil, cert)`: a stub peer with no note and no accusation. -/
def newPeer (c : Cert) : Peer :=
  { id := c.id, addr := c.addr, publicKey := c.publicKey, cert := c,
    recentNote := none, accusation? := none }

/-- The note of the view peer with key `k`, if any. -/
def peerNote (s : NodeState) (k : Nat) : Option note :=
  (getViewPeer s k).bind (fun p => p.recentNote)

/-- The accusation of the view peer with key `k`, if any. -/
def peerAcc (s : NodeState) (k : Nat) : Option accusation :=
  (getViewPeer s k).bind (fun p => p.accusation?)

/-! ## Evaluation of incoming records (src/udp/udp.go) -/

/-- `evalAccusation` (`udp.go:243-323`).

Parameters standing for code outside the provided sources:
* `validSig a k` — `validateSignature(sign.R, sign.S, payload, key)` for
  the accusation payload and the accuser's public key `k` (an error
  return of `validateSignature` behaves like `false`: both paths drop);
* `higherRank a b` — `n.isHigherRank(a, b)`;
* `isPrev a b` — `n.isPrev(accuserPeer, p)` on the peers' ids.

The self-accusation branch calls `n.setEpoch(epoch + 1)` — a plain
setter on the local epoch (modelled from the spec's local state, §3) —
followed by `getProtocol().Rebuttal(n)`, modelled from the spec
(§4.3 step 1: resign the local note, schedule immediate gossip) as
re-signing the local note at the new epoch and counting the rebuttal. -/
def evalAccusation (validSig : AccMsg → Nat → Bool)
    (higherRank : Nat → Nat → Bool) (isPrev : Nat → Nat → Bool)
    (s : NodeState) (a : AccMsg) : NodeState :=
  if a.accused == s.localId then
    let bumped := a.epoch + 1
    { s with currentEpoch := bumped, localNoteEpoch := bumped,
             rebuttals := s.rebuttals + 1 }
  else
    match getLivePeer s a.accused with
    | none => s
    | some p =>
      let staleOk : Bool :=
        match p.recentNote with
        | none => true
        | some nt => nt.epoch < a.epoch
      if staleOk then
        match getLivePeer s a.accuser with
        | none => s
        | some accuserPeer =>
          let rankOk : Bool :=
            match p.accusation? with
            | none => true
            | some acc => higherRank accuserPeer.id acc.accuser
          if rankOk then
            if validSig a accuserPeer.publicKey then
              if isPrev accuserPeer.id p.id then
                let newAcc : accusation :=
                  { peerId := p.id, epoch := a.epoch,
                    accuser := accuserPeer.id,
                    sigR := a.sigR, sigS := a.sigS }
                let s1 := setPeerAccusation s p.id newAcc
                if timerExist s1 a.accused then s1
                else startTimer s1 a.accused
              else s
            else s
          else s
      else s

/-- `evalNote` (`udp.go:325-382`).  `validSig m k` models
`validateSignature` over the note payload with the peer's public key. -/
def evalNote (validSig : NoteMsg → Nat → Bool) (s : NodeState)
    (m : NoteMsg) : NodeState :=
  match getViewPeer s m.id with
  | none => s
  | some p =>
    if validSig m p.publicKey then
      match p.accusation? with
      | none =>
        let accept : Bool :=
          match p.recentNote with
          | none => true
          | some currNote => currNote.epoch < m.epoch
        if accept then
          let s1 := setPeerNote s m.id
            { peerId := p.id, epoch := m.epoch, sigR := m.sigR, sigS := m.sigS }
          if (getLivePeer s1 m.id).isNone then addLivePeerId s1 m.id else s1
        else s
      | some peerAccuse =>
        if peerAccuse.epoch < m.epoch then
          addLivePeerId (removePeerAccusation (deleteTimeout s m.id) m.id) m.id
        else s
    else s

/-- `evalCertificate` (`udp.go:384-404`).  The byte-level emptiness
guards (`len(Locality) == 0`, `len(SubjectKeyId) == 0`) have no
counterpart for `Nat`-modelled fields; the remaining guards (own address,
own id, already known) are kept. -/
def evalCertificate (s : NodeState) (c : Cert) : NodeState :=
  if c.addr == s.localAddr then s
  else if c.id == s.localId then s
  else
    match getViewPeer s c.id with
    | some _ => s
    | none => addViewPeer s (newPeer c)

/-- `mergeNotes` (`udp.go:214-222`): skip notes about the local id,
evaluate the rest in order. -/
def mergeNotes (validSig : NoteMsg → Nat → Bool) (s : NodeState)
    (msgs : List NoteMsg) : NodeState :=
  msgs.foldl (fun st m => if m.id == st.localId then st else evalNote validSig st m) s

/-- `mergeAccusations` (`udp.go:224-228`). -/
def mergeAccusations (validSig : AccMsg → Nat → Bool)
    (higherRank : Nat → Nat → Bool) (isPrev : Nat → Nat → Bool)
    (s : NodeState) (msgs : List AccMsg) : NodeState :=
  msgs.foldl (evalAccusation validSig higherRank isPrev) s

/-- `mergeCertificates` (`udp.go:230-241`): evaluate the caller's own
certificate, then the batch (wire certificates arrive parsed in this
model; a Go parse failure skips the entry, which the model does not
represent). -/
def mergeCertificates (s : NodeState) (certs : List Cert)
    (remoteCert : Cert) : NodeState :=
  certs.foldl evalCertificate (evalCertificate s remoteCert)

/-- `Spread` (`udp.go:135-206`), after the authentication prologue
succeeded and produced the caller's certificate.  `shouldBeNeighbours`
and `findNeighbours` live outside the provided sources and are taken as
parameters.  Returns the new state and the `Partners` reply
certificates. -/
def Spread (validNoteSig : NoteMsg → Nat → Bool)
    (validAccSig : AccMsg → Nat → Bool)
    (higherRank : Nat → Nat → Bool) (isPrev : Nat → Nat → Bool)
    (shouldBeNeighbours : Nat → Bool) (findNeighbours : Nat → List Nat)
    (s : NodeState) (callerCert : Cert) (msg : GossipMsg) :
    NodeState × List Cert :=
  let key := callerCert.id
  if !(shouldBeNeighbours key) then
    let s1 :=
      if !(viewPeerExist s key) then
        addLivePeerId (addViewPeer s (newPeer callerCert)) key
      else s
    let reply := (findNeighbours key).filterMap
      (fun k => (getLivePeer s1 k).map (fun p => p.cert))
    (s1, reply)
  else
    let s1 :=
      if !(viewPeerExist s key) then
        addLivePeerId (addViewPeer s (newPeer callerCert)) key
      else s
    let s2 := mergeCertificates s1 msg.certificates callerCert
    let s3 := mergeNotes validNoteSig s2 msg.notes
    let s4 := mergeAccusations validAccSig higherRank isPrev s3 msg.accusations
    (s4, [])

/-- `errNoData` (`node.go:23`). -/
def errNoData : String := "Gossip data has zero length"

/-- `AppendGossipData` (`node.go:248-268`).  The function declares
`var bytes []byte` — a nil, zero-length buffer — and calls
`data.Read(bytes)` on it.  The reader is modelled by the outcome of that
single `Read` call on the empty buffer: `numRead` (Go `int`) and an
optional error.  Per the `io.Reader` contract a read into a zero-length
buffer returns at most 0 bytes; that bound is a hypothesis of the claim
theorem, not baked into the definition. -/
def AppendGossipData (s : NodeState) (id : Nat) (numRead : Int)
    (readErr : Option String) : NodeState × Option String :=
  if readErr.isSome then (s, readErr)
  else if numRead ≤ 0 then (s, some errNoData)
  else ({ s with gossipData := s.gossipData ++ [(id, 0)] }, none)

/-! ## Helper lemmas on the state operations -/

/-- A found view peer carries the looked-up key. -/
lemma getViewPeer_id {s : NodeState} {k : Nat} {p : Peer}
    (h : getViewPeer s k = some p) : p.id = k := by
  unfold getViewPeer at h
  have := List.find?_some h
  simpa using this

/-- A found live peer carries the looked-up key and is live and in
view. -/
lemma getLivePeer_eq {s : NodeState} {k : Nat} {p : Peer}
    (h : getLivePeer s k = some p) :
    s.live.contains k = true ∧ getViewPeer s k = some p := by
  unfold getLivePeer at h
  by_cases hc : s.live.contains k
  · rw [if_pos hc] at h
    exact ⟨hc, h⟩
  · rw [if_neg hc] at h
    exact absurd h (by simp)

/-- `find?` over a keyed update: looking up the updated key sees the
update; other keys are untouched.  Requires the update to preserve the
key, which all peer updates do. -/
lemma find?_upd (l : List Peer) (k j : Nat) (f : Peer → Peer)
    (hf : ∀ q, (f q).id = q.id) :
    (l.map (fun q => if q.id == k then f q else q)).find?
        (fun p => p.id == j) =
      if j = k then Option.map f (l.find? (fun p => p.id == k))
      else l.find? (fun p => p.id == j) := by
  induction l with
  | nil =>
    by_cases hjk : j = k <;> simp [hjk]
  | cons q l ih =>
    by_cases hqk : q.id = k
    · have hmap : List.map (fun q => if q.id == k then f q else q) (q :: l) =
          f q :: List.map (fun q => if q.id == k then f q else q) l := by
        simp [hqk]
      rw [hmap]
      by_cases hjk : j = k
      · subst hjk
        rw [List.find?_cons_of_pos _ (by simp [hf q, hqk])]
        rw [if_pos rfl]
        rw [List.find?_cons_of_pos _ (by simp [hqk])]
        simp
      · rw [List.find?_cons_of_neg _ (by simp [hf q, hqk]; omega)]
        rw [ih, if_neg hjk, if_neg hjk]
        rw [List.find?_cons_of_neg _ (by simp; omega)]
    · have hmap : List.map (fun q => if q.id == k then f q else q) (q :: l) =
          q :: List.map (fun q => if q.id == k then f q else q) l := by
        simp [hqk]
      rw [hmap]
      by_cases hqj : q.id = j
      · have hjk : ¬ j = k := by omega
        rw [List.find?_cons_of_pos _ (by simp [hqj])]
        rw [if_neg hjk]
        rw [List.find?_cons_of_pos _ (by simp [hqj])]
      · rw [List.find?_cons_of_neg _ (by simp; omega)]
        rw [ih]
        by_cases hjk : j = k
        · subst hjk
          rw [if_pos rfl, if_pos rfl]
          rw [List.find?_cons_of_neg _ (by simp; omega)]
        · rw [if_neg hjk, if_neg hjk]
          rw [List.find?_cons_of_neg _ (by simp; omega)]

/-- View lookup after `updPeers`. -/
lemma getViewPeer_updPeers (s : NodeState) (k j : Nat) (f : Peer → Peer)
    (hf : ∀ q, (f q).id = q.id) :
    getViewPeer (updPeers s k f) j =
      if j = k then Option.map f (getViewPeer s k) else getViewPeer s j := by
  unfold getViewPeer updPeers
  exact find?_upd s.peers k j f hf

/-- Operations that only touch `live` or `timeouts` leave the view
intact. -/
lemma getViewPeer_addLivePeerId (s : NodeState) (k j : Nat) :
    getViewPeer (addLivePeerId s k) j = getViewPeer s j := rfl

lemma getViewPeer_deleteTimeout (s : NodeState) (k j : Nat) :
    getViewPeer (deleteTimeout s k) j = getViewPeer s j := rfl

lemma getViewPeer_startTimer (s : NodeState) (k j : Nat) :
    getViewPeer (startTimer s k) j = getViewPeer s j := rfl

/-- `peerAcc`/`peerNote` frame lemmas: operations on `live` and
`timeouts` do not change stored notes or accusations. -/
lemma peerAcc_startTimer (s : NodeState) (k j : Nat) :
    peerAcc (startTimer s k) j = peerAcc s j := rfl

lemma peerNote_addLivePeerId (s : NodeState) (k j : Nat) :
    peerNote (addLivePeerId s k) j = peerNote s j := rfl

lemma peerAcc_addLivePeerId (s : NodeState) (k j : Nat) :
    peerAcc (addLivePeerId s k) j = peerAcc s j := rfl

/-- Setting a note on `k` makes it the stored note of `k`. -/
lemma peerNote_setPeerNote_same (s : NodeState) (k : Nat) (nt : note)
    (p : Peer) (hview : getViewPeer s k = some p) :
    peerNote (setPeerNote s k nt) k = some nt := by
  unfold peerNote setPeerNote
  rw [getViewPeer_updPeers s k k
    (fun q => { q with recentNote := some nt }) (fun q => rfl),
    if_pos rfl, hview]
  rfl

/-- Setting a note on `k` leaves other keys' notes alone. -/
lemma peerNote_setPeerNote_other (s : NodeState) (k : Nat) (nt : note)
    (j : Nat) (hj : j ≠ k) :
    peerNote (setPeerNote s k nt) j = peerNote s j := by
  unfold peerNote setPeerNote
  rw [getViewPeer_updPeers s k j
    (fun q => { q with recentNote := some nt }) (fun q => rfl),
    if_neg hj]

/-- Clearing an accusation on `k`, seen from any key. -/
lemma peerNote_removePeerAccusation (s : NodeState) (k j : Nat) :
    peerNote (removePeerAccusation s k) j = peerNote s j := by
  unfold peerNote removePeerAccusation
  rw [getViewPeer_updPeers s k j
    (fun q => { q with accusation? := none }) (fun q => rfl)]
  by_cases hj : j = k
  · rw [if_pos hj, hj]
    rcases h : getViewPeer s k with _ | p <;> rfl
  · rw [if_neg hj]

lemma peerNote_deleteTimeout (s : NodeState) (k j : Nat) :
    peerNote (deleteTimeout s k) j = peerNote s j := rfl

/-- Setting an accusation on `k` makes it the stored accusation of `k`. -/
lemma peerAcc_setPeerAccusation (s : NodeState) (k : Nat) (a : accusation)
    (p : Peer) (hview : getViewPeer s k = some p) :
    peerAcc (setPeerAccusation s k a) k = some a := by
  unfold peerAcc setPeerAccusation
  rw [getViewPeer_updPeers s k k
    (fun q => { q with accusation? := some a }) (fun q => rfl),
    if_pos rfl, hview]
  rfl

lemma find?_append_none {α : Type} (l1 l2 : List α) (p : α → Bool)
    (h : l1.find? p = none) : (l1 ++ l2).find? p = l2.find? p := by
  induction l1 with
  | nil => rfl
  | cons a l1 ih =>
    rw [List.find?_cons] at h
    rcases hpa : p a with _ | _
    · rw [hpa] at h
      rw [List.cons_append, List.find?_cons_of_neg _ (by simp [hpa])]
      exact ih h
    · rw [hpa] at h
      simp at h

lemma find?_append_some {α : Type} (l1 l2 : List α) (p : α → Bool) (a : α)
    (h : l1.find? p = some a) : (l1 ++ l2).find? p = some a := by
  induction l1 with
  | nil => simp at h
  | cons b l1 ih =>
    rw [List.find?_cons] at h
    rcases hpb : p b with _ | _
    · rw [hpb] at h
      rw [List.cons_append, List.find?_cons_of_neg _ (by simp [hpb])]
      exact ih h
    · rw [hpb] at h
      rw [List.cons_append, List.find?_cons_of_pos _ (by simp [hpb])]
      exact h

/-- Looking up a freshly appended view peer. -/
lemma getViewPeer_addViewPeer_self (s : NodeState) (p : Peer)
    (h : getViewPeer s p.id = none) :
    getViewPeer (addViewPeer s p) p.id = some p := by
  unfold getViewPeer at h
  unfold getViewPeer addViewPeer
  dsimp only
  rw [find?_append_none _ _ _ h]
  simp

/-- Appending a view peer does not disturb other keys. -/
lemma getViewPeer_addViewPeer_other (s : NodeState) (p : Peer) (j : Nat)
    (hj : j ≠ p.id) :
    getViewPeer (addViewPeer s p) j = getViewPeer s j := by
  unfold getViewPeer addViewPeer
  dsimp only
  rcases hfind : s.peers.find? (fun q => q.id == j) with _ | q
  · rw [find?_append_none _ _ _ hfind, hfind]
    rw [List.find?_cons_of_neg _ (by simp; omega)]
    rfl
  · rw [hfind]
    exact find?_append_some s.peers [p] (fun q => q.id == j) q hfind

/-- Membership in `live` after `addLivePeerId`. -/
lemma mem_live_addLivePeerId (s : NodeState) (k : Nat) :
    k ∈ (addLivePeerId s k).live := by
  unfold addLivePeerId
  dsimp only
  by_cases hc : s.live.contains k
  · rw [if_pos hc]
    exact List.mem_of_elem_eq_true hc
  · rw [if_neg hc]
    simp

/-! ## Claim theorems: self-accusation (C1) -/

/-- C1 counterexample: with local epoch 5 and an accusation against the
local id at epoch 1, `evalAccusation` sets the local epoch to
`1 + 1 = 2` — not `max(5, 1) + 1 = 6` — so the local epoch decreases,
refuting both the `max` formula and monotonicity. -/
theorem evalAccusation_self_epoch_decrease_cex :
    (evalAccusation (fun _ _ => true) (fun _ _ => true) (fun _ _ => true)
        { localId := 1, localAddr := 0, currentEpoch := 5,
          localNoteEpoch := 5, rebuttals := 0, peers := [], live := [],
          timeouts := [], gossipData := [] }
        { accused := 1, accuser := 2, epoch := 1, sigR := 0,
          sigS := 0 }).currentEpoch = 2 ∧
      (2 : Nat) < 5 ∧ (2 : Nat) ≠ max 5 1 + 1 := by
  refine ⟨by decide, by decide, by decide⟩

/-- C1 (amended): when an accusation names the local node, the whole
effect of `evalAccusation` is to set the local epoch to the accusation's
epoch plus one (not `max(currentEpoch, epoch) + 1`), re-sign the local
note at that epoch, and trigger the rebuttal; the accusation is not
recorded and nothing else changes.  With local epoch 5 and accusation
epoch 5 the local epoch becomes 6, but an accusation with an old epoch
can lower the local epoch (see `evalAccusation_self_epoch_decrease_cex`). -/
theorem evalAccusation_self (validSig : AccMsg → Nat → Bool)
    (higherRank : Nat → Nat → Bool) (isPrev : Nat → Nat → Bool)
    (s : NodeState) (a : AccMsg) (h : a.accused = s.localId) :
    evalAccusation validSig higherRank isPrev s a =
      { s with currentEpoch := a.epoch + 1, localNoteEpoch := a.epoch + 1,
               rebuttals := s.rebuttals + 1 } := by
  unfold evalAccusation
  rw [if_pos (by simp [h])]

/-- C1 witness: the S1 scenario (local id 1, epoch 5; accusation
`{accused 1, accuser 2, epoch 5}`) ends with local epoch 6, local note
re-signed at 6, a rebuttal triggered, and no accusation stored. -/
theorem evalAccusation_self_witness :
    evalAccusation (fun _ _ => true) (fun _ _ => true) (fun _ _ => true)
        { localId := 1, localAddr := 0, currentEpoch := 5,
          localNoteEpoch := 5, rebuttals := 0, peers := [], live := [],
          timeouts := [], gossipData := [] }
        { accused := 1, accuser := 2, epoch := 5, sigR := 0, sigS := 0 } =
      { localId := 1, localAddr := 0, currentEpoch := 6,
        localNoteEpoch := 6, rebuttals := 1, peers := [], live := [],
        timeouts := [], gossipData := [] } :=
  evalAccusation_self (fun _ _ => true) (fun _ _ => true) (fun _ _ => true)
    _ _ (by decide)

/-! ## Claim theorems: note evaluation for accused peers (C2) -/

/-- Concrete state for exercising the rebuttal branch: peer 2 is known
with stored note at epoch 6 and an accusation at epoch 7 (accuser 3),
with a running timeout. -/
def c2State : NodeState :=
  { localId := 1, localAddr := 0, currentEpoch := 1,
    localNoteEpoch := 1, rebuttals := 0,
    peers := [{ id := 2, addr := 5, publicKey := 9,
                cert := { id := 2, addr := 5, publicKey := 9, raw := 0 },
                recentNote := some { peerId := 2, epoch := 6, sigR := 0, sigS := 0 },
                accusation? := some { peerId := 2, epoch := 7, accuser := 3,
                                      sigR := 0, sigS := 0 } }],
    live := [4], timeouts := [2], gossipData := [] }

/-- The rebuttal note for peer 2 at epoch 8. -/
def c2Msg : NoteMsg := { id := 2, epoch := 8, sigR := 1, sigS := 1 }

/-- C2 counterexample: processing the epoch-8 note against the epoch-7
accusation clears the accusation, cancels the timeout and re-adds peer 2
to the live set — but the stored note is still the old epoch-6 note: the
rebuttal branch of `evalNote` never calls `setNote`, refuting the
"stores the note" part of the claim. -/
theorem evalNote_rebuttal_cex :
    peerNote (evalNote (fun _ _ => true) c2State c2Msg) 2 =
        some { peerId := 2, epoch := 6, sigR := 0, sigS := 0 } ∧
      peerNote (evalNote (fun _ _ => true) c2State c2Msg) 2 ≠
        some { peerId := 2, epoch := 8, sigR := 1, sigS := 1 } ∧
      peerAcc (evalNote (fun _ _ => true) c2State c2Msg) 2 = none ∧
      (evalNote (fun _ _ => true) c2State c2Msg).timeouts = [] ∧
      (evalNote (fun _ _ => true) c2State c2Msg).live = [4, 2] := by
  refine ⟨by decide, by decide, by decide, by decide, by decide⟩

/-- C2 (amended): for an incoming note with a valid signature for a known
peer that currently has an accusation — if the note's epoch is strictly
greater than the accusation's epoch, `evalNote` clears the accusation,
cancels its timeout and re-adds the peer to the live set, but does *not*
store the note (the peer's stored note is unchanged); otherwise nothing
changes. -/
theorem evalNote_rebuttal (validSig : NoteMsg → Nat → Bool)
    (s : NodeState) (m : NoteMsg) (p : Peer) (acc : accusation)
    (hp : getViewPeer s m.id = some p)
    (hsig : validSig m p.publicKey = true)
    (hacc : p.accusation? = some acc) :
    (acc.epoch < m.epoch →
      peerAcc (evalNote validSig s m) m.id = none ∧
      m.id ∉ (evalNote validSig s m).timeouts ∧
      m.id ∈ (evalNote validSig s m).live ∧
      peerNote (evalNote validSig s m) m.id = peerNote s m.id) ∧
    (m.epoch ≤ acc.epoch → evalNote validSig s m = s) := by
  unfold evalNote
  rw [hp]
  dsimp only
  rw [hsig, if_pos rfl, hacc]
  dsimp only
  constructor
  · intro hlt
    rw [if_pos hlt]
    refine ⟨?_, ?_, ?_, ?_⟩
    · unfold peerAcc removePeerAccusation
      rw [getViewPeer_addLivePeerId]
      rw [getViewPeer_updPeers _ _ _
        (fun q => { q with accusation? := none }) (fun q => rfl), if_pos rfl]
      rw [getViewPeer_deleteTimeout, hp]
      rfl
    · unfold addLivePeerId removePeerAccusation updPeers deleteTimeout
      dsimp only
      intro hmem
      have := (List.mem_filter.1 hmem).2
      simp at this
    · exact mem_live_addLivePeerId _ _
    · unfold peerNote removePeerAccusation
      rw [getViewPeer_addLivePeerId]
      rw [getViewPeer_updPeers _ _ _
        (fun q => { q with accusation? := none }) (fun q => rfl), if_pos rfl]
      rw [getViewPeer_deleteTimeout, hp]
      rfl
  · intro hge
    rw [if_neg (by omega)]

/-- C2 witness: the amended theorem applied at the concrete rebuttal
scenario. -/
theorem evalNote_rebuttal_witness :
    ((7 : Nat) < 8 →
      peerAcc (evalNote (fun _ _ => true) c2State c2Msg) c2Msg.id = none ∧
      c2Msg.id ∉ (evalNote (fun _ _ => true) c2State c2Msg).timeouts ∧
      c2Msg.id ∈ (evalNote (fun _ _ => true) c2State c2Msg).live ∧
      peerNote (evalNote (fun _ _ => true) c2State c2Msg) c2Msg.id =
        peerNote c2State c2Msg.id) ∧
    ((8 : Nat) ≤ 7 → evalNote (fun _ _ => true) c2State c2Msg = c2State) :=
  evalNote_rebuttal (fun _ _ => true) c2State c2Msg
    { id := 2, addr := 5, publicKey := 9,
      cert := { id := 2, addr := 5, publicKey := 9, raw := 0 },
      recentNote := some { peerId := 2, epoch := 6, sigR := 0, sigS := 0 },
      accusation? := some { peerId := 2, epoch := 7, accuser := 3,
                            sigR := 0, sigS := 0 } }
    { peerId := 2, epoch := 7, accuser := 3, sigR := 0, sigS := 0 }
    (by decide) (by decide) (by decide)

/-! ## Claim theorems: staleness gate for accusations (C3) -/

/-- Concrete state for the staleness gate: accused peer 2 (live, note at
epoch 7, no accusation) and accuser peer 3 (live). -/
def c3State : NodeState :=
  { localId := 1, localAddr := 0, currentEpoch := 1,
    localNoteEpoch := 1, rebuttals := 0,
    peers := [{ id := 2, addr := 5, publicKey := 9,
                cert := { id := 2, addr := 5, publicKey := 9, raw := 0 },
                recentNote := some { peerId := 2, epoch := 7, sigR := 0, sigS := 0 },
                accusation? := none },
              { id := 3, addr := 6, publicKey := 8,
                cert := { id := 3, addr := 6, publicKey := 8, raw := 0 },
                recentNote := some { peerId := 3, epoch := 1, sigR := 0, sigS := 0 },
                accusation? := none }],
    live := [2, 3], timeouts := [], gossipData := [] }

/-- An accusation against peer 2 whose epoch equals peer 2's note epoch. -/
def c3Msg : AccMsg := { accused := 2, accuser := 3, epoch := 7, sigR := 0, sigS := 0 }

/-- C3 counterexample: the accusation epoch equals the accused's note
epoch (both 7), the accuser is live, the signature validates and the
predecessor check holds — yet `evalAccusation` drops the accusation
(state unchanged, nothing recorded), because the code's gate requires
`epoch > note.epoch` strictly.  The claim said an equal-epoch accusation
is valid. -/
theorem evalAccusation_equal_epoch_cex :
    evalAccusation (fun _ _ => true) (fun _ _ => true) (fun _ _ => true)
        c3State c3Msg = c3State ∧
      peerAcc (evalAccusation (fun _ _ => true) (fun _ _ => true)
        (fun _ _ => true) c3State c3Msg) 2 = none := by
  refine ⟨by decide, by decide⟩

/-- C3 (amended): an incoming accusation against a non-local peer is
looked up in the *live* map: if the accused is not live (in particular if
it is unknown) the accusation is dropped; if the accused has a current
note with `note.epoch ≥ accusation.epoch` — equality included — the
accusation is dropped as stale (state unchanged); and when the accused
has no note or `accusation.epoch > note.epoch`, an otherwise valid
accusation (live accuser, rank check, signature, predecessor check) is
recorded. -/
theorem evalAccusation_stale_gate (validSig : AccMsg → Nat → Bool)
    (higherRank : Nat → Nat → Bool) (isPrev : Nat → Nat → Bool)
    (s : NodeState) (a : AccMsg) (hlocal : a.accused ≠ s.localId) :
    (getLivePeer s a.accused = none →
      evalAccusation validSig higherRank isPrev s a = s) ∧
    (∀ p nt, getLivePeer s a.accused = some p → p.recentNote = some nt →
      a.epoch ≤ nt.epoch →
      evalAccusation validSig higherRank isPrev s a = s) ∧
    (∀ p q, getLivePeer s a.accused = some p →
      (p.recentNote = none ∨ ∃ nt, p.recentNote = some nt ∧ nt.epoch < a.epoch) →
      getLivePeer s a.accuser = some q →
      (p.accusation? = none ∨ ∃ old, p.accusation? = some old ∧
        higherRank q.id old.accuser = true) →
      validSig a q.publicKey = true → isPrev q.id p.id = true →
      peerAcc (evalAccusation validSig higherRank isPrev s a) a.accused =
        some { peerId := p.id, epoch := a.epoch, accuser := q.id,
               sigR := a.sigR, sigS := a.sigS }) := by
  unfold evalAccusation
  rw [if_neg (by simp [hlocal])]
  refine ⟨?_, ?_, ?_⟩
  · intro hnone
    rw [hnone]
  · intro p nt hp hnt hle
    rw [hp]
    dsimp only
    rw [hnt]
    dsimp only
    rw [if_neg (by simp; omega)]
  · intro p q hp hnote hq hrank hsig hprev
    rw [hp]
    dsimp only
    have hstale : (match p.recentNote with
        | none => true
        | some nt => decide (nt.epoch < a.epoch)) = true := by
      rcases hnote with h | ⟨nt, hnt, hlt⟩
      · rw [h]
      · rw [hnt]
        simpa using hlt
    rw [hstale, if_pos rfl, hq]
    dsimp only
    have hrankOk : (match p.accusation? with
        | none => true
        | some acc => higherRank q.id acc.accuser) = true := by
      rcases hrank with h | ⟨old, hold, hhr⟩
      · rw [h]
      · rw [hold]
        exact hhr
    rw [hrankOk, if_pos rfl, hsig, if_pos rfl, hprev, if_pos rfl]
    have hpid : p.id = a.accused := getViewPeer_id (getLivePeer_eq hp).2
    have hview : getViewPeer s a.accused = some p := (getLivePeer_eq hp).2
    rw [← hpid] at hview ⊢
    by_cases ht : timerExist (setPeerAccusation s p.id
        { peerId := p.id, epoch := a.epoch, accuser := q.id,
          sigR := a.sigR, sigS := a.sigS }) p.id
    · rw [if_pos ht]
      exact peerAcc_setPeerAccusation s p.id _ p hview
    · rw [if_neg ht]
      rw [peerAcc_startTimer]
      exact peerAcc_setPeerAccusation s p.id _ p hview

/-- C3 witness: the amended theorem at the concrete state, with a fresh
accusation at epoch 8 (`> 7`); the third conjunct records it. -/
theorem evalAccusation_stale_gate_witness :
    (getLivePeer c3State 2 = none →
      evalAccusation (fun _ _ => true) (fun _ _ => true) (fun _ _ => true)
        c3State { accused := 2, accuser := 3, epoch := 8, sigR := 0, sigS := 0 } =
        c3State) ∧
    (∀ p nt, getLivePeer c3State 2 = some p → p.recentNote = some nt →
      8 ≤ nt.epoch →
      evalAccusation (fun _ _ => true) (fun _ _ => true) (fun _ _ => true)
        c3State { accused := 2, accuser := 3, epoch := 8, sigR := 0, sigS := 0 } =
        c3State) ∧
    (∀ p q, getLivePeer c3State 2 = some p →
      (p.recentNote = none ∨ ∃ nt, p.recentNote = some nt ∧ nt.epoch < 8) →
      getLivePeer c3State 3 = some q →
      (p.accusation? = none ∨ ∃ old, p.accusation? = some old ∧
        (fun _ _ => true : Nat → Nat → Bool) q.id old.accuser = true) →
      (fun _ _ => true : AccMsg → Nat → Bool)
        { accused := 2, accuser := 3, epoch := 8, sigR := 0, sigS := 0 }
        q.publicKey = true →
      (fun _ _ => true : Nat → Nat → Bool) q.id p.id = true →
      peerAcc (evalAccusation (fun _ _ => true) (fun _ _ => true)
        (fun _ _ => true) c3State
        { accused := 2, accuser := 3, epoch := 8, sigR := 0, sigS := 0 }) 2 =
        some { peerId := p.id, epoch := 8, accuser := q.id,
               sigR := 0, sigS := 0 }) :=
  evalAccusation_stale_gate (fun _ _ => true) (fun _ _ => true)
    (fun _ _ => true) c3State
    { accused := 2, accuser := 3, epoch := 8, sigR := 0, sigS := 0 }
    (by decide)

/-! ## Claim theorems: `Spread` for non-neighbours (C6) -/

/-- A state that does not know the caller yet. -/
def c6State : NodeState :=
  { localId := 1, localAddr := 0, currentEpoch := 1,
    localNoteEpoch := 1, rebuttals := 0,
    peers := [], live := [], timeouts := [], gossipData := [] }

/-- The certificate of an unknown non-neighbour caller. -/
def c6Cert : Cert := { id := 9, addr := 11, publicKey := 2, raw := 3 }

/-- C6 counterexample: a gossip call from an unknown non-neighbour adds
the stub peer to the view *and to the live set* — `Spread` calls both
`addViewPeer` and `addLivePeer` (udp.go:172-173) — refuting the "present
in the view but not in the live set" part of the claim. -/
theorem spread_stub_live_cex :
    getViewPeer (Spread (fun _ _ => true) (fun _ _ => true) (fun _ _ => true)
        (fun _ _ => true) (fun _ => false) (fun _ => []) c6State c6Cert
        { certificates := [], notes := [], accusations := [] }).1 9 =
      some (newPeer c6Cert) ∧
    9 ∈ (Spread (fun _ _ => true) (fun _ _ => true) (fun _ _ => true)
        (fun _ _ => true) (fun _ => false) (fun _ => []) c6State c6Cert
        { certificates := [], notes := [], accusations := [] }).1.live := by
  refine ⟨by decide, by decide⟩

/-- C6 (amended): when `Spread` is called by an authenticated peer for
which `shouldBeNeighbours` is false, the server adds a stub peer for the
caller if unknown — and the stub is placed in the view *and in the live
set* (not view-only as claimed); it returns exactly the certificates of
those of the caller's computed neighbours that are live — every reply
certificate belongs to a live computed neighbour, and every live
computed neighbour's certificate is in the reply; and it merges nothing
from the caller's gossip message: every other view entry, the gossip
data, the timeouts, the local epoch and the liveness of every other peer
are unchanged. -/
theorem spread_non_neighbour (validNoteSig : NoteMsg → Nat → Bool)
    (validAccSig : AccMsg → Nat → Bool)
    (higherRank isPrev : Nat → Nat → Bool)
    (shouldBeNeighbours : Nat → Bool) (findNeighbours : Nat → List Nat)
    (s : NodeState) (callerCert : Cert) (msg : GossipMsg)
    (hnb : shouldBeNeighbours callerCert.id = false) :
    (getViewPeer s callerCert.id = none →
      getViewPeer (Spread validNoteSig validAccSig higherRank isPrev
          shouldBeNeighbours findNeighbours s callerCert msg).1 callerCert.id =
        some (newPeer callerCert) ∧
      callerCert.id ∈ (Spread validNoteSig validAccSig higherRank isPrev
          shouldBeNeighbours findNeighbours s callerCert msg).1.live) ∧
    (∀ p0, getViewPeer s callerCert.id = some p0 →
      (Spread validNoteSig validAccSig higherRank isPrev
          shouldBeNeighbours findNeighbours s callerCert msg).1 = s) ∧
    (∀ c ∈ (Spread validNoteSig validAccSig higherRank isPrev
        shouldBeNeighbours findNeighbours s callerCert msg).2,
      ∃ k ∈ findNeighbours callerCert.id, ∃ p,
        getLivePeer (Spread validNoteSig validAccSig higherRank isPrev
          shouldBeNeighbours findNeighbours s callerCert msg).1 k = some p ∧
        c = p.cert) ∧
    (∀ k ∈ findNeighbours callerCert.id, ∀ p,
      getLivePeer (Spread validNoteSig validAccSig higherRank isPrev
        shouldBeNeighbours findNeighbours s callerCert msg).1 k = some p →
      p.cert ∈ (Spread validNoteSig validAccSig higherRank isPrev
        shouldBeNeighbours findNeighbours s callerCert msg).2) ∧
    (∀ j, j ≠ callerCert.id →
      getViewPeer (Spread validNoteSig validAccSig higherRank isPrev
        shouldBeNeighbours findNeighbours s callerCert msg).1 j =
        getViewPeer s j) ∧
    (Spread validNoteSig validAccSig higherRank isPrev
      shouldBeNeighbours findNeighbours s callerCert msg).1.gossipData =
      s.gossipData ∧
    (Spread validNoteSig validAccSig higherRank isPrev
      shouldBeNeighbours findNeighbours s callerCert msg).1.timeouts =
      s.timeouts ∧
    (Spread validNoteSig validAccSig higherRank isPrev
      shouldBeNeighbours findNeighbours s callerCert msg).1.currentEpoch =
      s.currentEpoch ∧
    (∀ j, j ≠ callerCert.id →
      (j ∈ (Spread validNoteSig validAccSig higherRank isPrev
        shouldBeNeighbours findNeighbours s callerCert msg).1.live ↔
        j ∈ s.live)) := by
  unfold Spread
  dsimp only
  simp only [hnb, Bool.not_false]
  rw [if_pos (by trivial)]
  by_cases hk : getViewPeer s callerCert.id = none
  · have hexist : viewPeerExist s callerCert.id = false := by
      unfold viewPeerExist
      rw [hk]
      rfl
    simp only [hexist, Bool.not_false]
    rw [if_pos (by trivial)]
    refine ⟨?_, ?_, ?_, ?_, ?_, rfl, rfl, rfl, ?_⟩
    · intro _
      constructor
      · rw [getViewPeer_addLivePeerId]
        exact getViewPeer_addViewPeer_self s (newPeer callerCert) hk
      · exact mem_live_addLivePeerId _ _
    · intro p0 hp0
      rw [hk] at hp0
      exact absurd hp0 (by simp)
    · intro c hc
      rcases List.mem_filterMap.1 hc with ⟨k, hkmem, hkeq⟩
      rcases Option.map_eq_some'.1 hkeq with ⟨p, hp, hpc⟩
      exact ⟨k, hkmem, p, hp, hpc.symm⟩
    · intro k hkmem p hp
      exact List.mem_filterMap.2 ⟨k, hkmem, by rw [hp]; rfl⟩
    · intro j hj
      rw [getViewPeer_addLivePeerId]
      exact getViewPeer_addViewPeer_other s (newPeer callerCert) j hj
    · intro j hj
      unfold addLivePeerId addViewPeer
      dsimp only
      by_cases hc : s.live.contains callerCert.id
      · rw [if_pos hc]
      · rw [if_neg hc]
        simp [List.mem_append, hj]
  · have hexist : viewPeerExist s callerCert.id = true := by
      unfold viewPeerExist
      rcases ho : getViewPeer s callerCert.id with _ | p0
      · exact absurd ho hk
      · rfl
    simp only [hexist, Bool.not_true]
    rw [if_neg (by simp)]
    refine ⟨?_, ?_, ?_, ?_, ?_, rfl, rfl, rfl, ?_⟩
    · intro h0
      exact absurd h0 hk
    · intro p0 _
      rfl
    · intro c hc
      rcases List.mem_filterMap.1 hc with ⟨k, hkmem, hkeq⟩
      rcases Option.map_eq_some'.1 hkeq with ⟨p, hp, hpc⟩
      exact ⟨k, hkmem, p, hp, hpc.symm⟩
    · intro k hkmem p hp
      exact List.mem_filterMap.2 ⟨k, hkmem, by rw [hp]; rfl⟩
    · intro j _
      rfl
    · intro j _
      exact Iff.rfl

/-- A live computed neighbour for the C6 witness. -/
def c6Peer3 : Peer :=
  { id := 3, addr := 7, publicKey := 4,
    cert := { id := 3, addr := 7, publicKey := 4, raw := 5 },
    recentNote := some { peerId := 3, epoch := 1, sigR := 0, sigS := 0 },
    accusation? := none }

/-- A state that does not know the caller but holds the live peer 3,
which `findNeighbours` will name — so the reply is non-empty. -/
def c6StateLive : NodeState :=
  { localId := 1, localAddr := 0, currentEpoch := 1,
    localNoteEpoch := 1, rebuttals := 0,
    peers := [c6Peer3], live := [3], timeouts := [], gossipData := [] }

/-- C6 witness: the amended theorem at a concrete unknown caller whose
computed neighbour 3 is live, so the reply actually carries peer 3's
certificate (last conjunct: the reply is exactly `[c6Peer3.cert]`). -/
theorem spread_non_neighbour_witness :
    ((getViewPeer c6StateLive c6Cert.id = none →
      getViewPeer (Spread (fun _ _ => true) (fun _ _ => true) (fun _ _ => true)
        (fun _ _ => true) (fun _ => false) (fun _ => [3]) c6StateLive c6Cert
        { certificates := [], notes := [], accusations := [] }).1 c6Cert.id =
        some (newPeer c6Cert) ∧
      c6Cert.id ∈ (Spread (fun _ _ => true) (fun _ _ => true) (fun _ _ => true)
        (fun _ _ => true) (fun _ => false) (fun _ => [3]) c6StateLive c6Cert
        { certificates := [], notes := [], accusations := [] }).1.live) ∧
    (∀ p0, getViewPeer c6StateLive c6Cert.id = some p0 →
      (Spread (fun _ _ => true) (fun _ _ => true) (fun _ _ => true)
        (fun _ _ => true) (fun _ => false) (fun _ => [3]) c6StateLive c6Cert
        { certificates := [], notes := [], accusations := [] }).1 = c6StateLive) ∧
    (∀ c ∈ (Spread (fun _ _ => true) (fun _ _ => true) (fun _ _ => true)
        (fun _ _ => true) (fun _ => false) (fun _ => [3]) c6StateLive c6Cert
        { certificates := [], notes := [], accusations := [] }).2,
      ∃ k ∈ (fun _ => [3] : Nat → List Nat) c6Cert.id, ∃ p,
        getLivePeer (Spread (fun _ _ => true) (fun _ _ => true) (fun _ _ => true)
        (fun _ _ => true) (fun _ => false) (fun _ => [3]) c6StateLive c6Cert
        { certificates := [], notes := [], accusations := [] }).1 k = some p ∧
        c = p.cert) ∧
    (∀ k ∈ (fun _ => [3] : Nat → List Nat) c6Cert.id, ∀ p,
      getLivePeer (Spread (fun _ _ => true) (fun _ _ => true) (fun _ _ => true)
        (fun _ _ => true) (fun _ => false) (fun _ => [3]) c6StateLive c6Cert
        { certificates := [], notes := [], accusations := [] }).1 k = some p →
      p.cert ∈ (Spread (fun _ _ => true) (fun _ _ => true) (fun _ _ => true)
        (fun _ _ => true) (fun _ => false) (fun _ => [3]) c6StateLive c6Cert
        { certificates := [], notes := [], accusations := [] }).2) ∧
    (∀ j, j ≠ c6Cert.id →
      getViewPeer (Spread (fun _ _ => true) (fun _ _ => true) (fun _ _ => true)
        (fun _ _ => true) (fun _ => false) (fun _ => [3]) c6StateLive c6Cert
        { certificates := [], notes := [], accusations := [] }).1 j =
        getViewPeer c6StateLive j) ∧
    (Spread (fun _ _ => true) (fun _ _ => true) (fun _ _ => true)
        (fun _ _ => true) (fun _ => false) (fun _ => [3]) c6StateLive c6Cert
        { certificates := [], notes := [], accusations := [] }).1.gossipData =
      c6StateLive.gossipData ∧
    (Spread (fun _ _ => true) (fun _ _ => true) (fun _ _ => true)
        (fun _ _ => true) (fun _ => false) (fun _ => [3]) c6StateLive c6Cert
        { certificates := [], notes := [], accusations := [] }).1.timeouts =
      c6StateLive.timeouts ∧
    (Spread (fun _ _ => true) (fun _ _ => true) (fun _ _ => true)
        (fun _ _ => true) (fun _ => false) (fun _ => [3]) c6StateLive c6Cert
        { certificates := [], notes := [], accusations := [] }).1.currentEpoch =
      c6StateLive.currentEpoch ∧
    (∀ j, j ≠ c6Cert.id →
      (j ∈ (Spread (fun _ _ => true) (fun _ _ => true) (fun _ _ => true)
        (fun _ _ => true) (fun _ => false) (fun _ => [3]) c6StateLive c6Cert
        { certificates := [], notes := [], accusations := [] }).1.live ↔
        j ∈ c6StateLive.live))) ∧
    (Spread (fun _ _ => true) (fun _ _ => true) (fun _ _ => true)
        (fun _ _ => true) (fun _ => false) (fun _ => [3]) c6StateLive c6Cert
        { certificates := [], notes := [], accusations := [] }).2 = [c6Peer3.cert] :=
  ⟨spread_non_neighbour (fun _ _ => true) (fun _ _ => true) (fun _ _ => true)
    (fun _ _ => true) (fun _ => false) (fun _ => [3]) c6StateLive c6Cert
    { certificates := [], notes := [], accusations := [] } (by decide),
   by decide⟩

/-! ## Claim theorems: note acceptance and the max-epoch invariant (C5) -/

/-- The epoch of the stored note of `k`, if any. -/
def peerNoteEpoch (s : NodeState) (k : Nat) : Option Nat :=
  (peerNote s k).map (fun nt => nt.epoch)

/-- Maximum of an optional initial epoch and a list of epochs (`none`
only when both are empty). -/
def maxEpoch : Option Nat → List Nat → Option Nat
  | o, [] => o
  | none, e :: l => maxEpoch (some e) l
  | some a, e :: l => maxEpoch (some (max a e)) l

/-- The epochs of the notes that `mergeNotes` actually accepts (stores)
for peer `k`, computed by replaying the merge. -/
def acceptedEpochs (validSig : NoteMsg → Nat → Bool) (s : NodeState)
    (k : Nat) : List NoteMsg → List Nat
  | [] => []
  | m :: ms =>
    let s1 := if m.id == s.localId then s else evalNote validSig s m
    (if peerNote s1 k = peerNote s k then [] else [m.epoch]) ++
      acceptedEpochs validSig s1 k ms

/-- One `evalNote` step, seen through the stored note of an arbitrary
key: it is either untouched, or replaced by the incoming note, whose
epoch strictly dominates whatever was stored. -/
lemma evalNote_note_step (validSig : NoteMsg → Nat → Bool) (s : NodeState)
    (m : NoteMsg) (k : Nat) :
    peerNote (evalNote validSig s m) k = peerNote s k ∨
    (peerNote (evalNote validSig s m) k =
        some { peerId := k, epoch := m.epoch, sigR := m.sigR, sigS := m.sigS } ∧
      ∀ nt, peerNote s k = some nt → nt.epoch < m.epoch) := by
  unfold evalNote
  rcases hp : getViewPeer s m.id with _ | p
  · exact Or.inl rfl
  · dsimp only
    by_cases hsig : validSig m p.publicKey = true
    · rw [hsig, if_pos rfl]
      rcases hacc : p.accusation? with _ | acc
      · dsimp only
        by_cases haccept : (match p.recentNote with
            | none => true
            | some currNote => decide (currNote.epoch < m.epoch)) = true
        · rw [haccept, if_pos rfl]
          by_cases hk : k = m.id
          · subst hk
            right
            have hpid : p.id = m.id := getViewPeer_id hp
            constructor
            · rw [hpid]
              have hbase := peerNote_setPeerNote_same s m.id
                { peerId := m.id, epoch := m.epoch, sigR := m.sigR, sigS := m.sigS }
                p hp
              split
              · rw [peerNote_addLivePeerId]
                exact hbase
              · exact hbase
            · intro nt hnt
              unfold peerNote at hnt
              rw [hp] at hnt
              dsimp at hnt
              rw [hnt] at haccept
              simpa using haccept
          · left
            have hbase := peerNote_setPeerNote_other s m.id
              { peerId := p.id, epoch := m.epoch, sigR := m.sigR, sigS := m.sigS }
              k hk
            split
            · rw [peerNote_addLivePeerId]
              exact hbase
            · exact hbase
        · rw [Bool.not_eq_true] at haccept
          rw [haccept, if_neg (by simp)]
          exact Or.inl rfl
      · dsimp only
        split
        · left
          rw [peerNote_addLivePeerId, peerNote_removePeerAccusation,
            peerNote_deleteTimeout]
        · exact Or.inl rfl
    · rw [Bool.not_eq_true] at hsig
      rw [hsig, if_neg (by simp)]
      exact Or.inl rfl

/-- One-step unfolding of `mergeNotes`. -/
lemma mergeNotes_cons (validSig : NoteMsg → Nat → Bool) (s : NodeState)
    (m : NoteMsg) (ms : List NoteMsg) :
    mergeNotes validSig s (m :: ms) =
      mergeNotes validSig
        (if m.id == s.localId then s else evalNote validSig s m) ms := rfl

/-- One-step unfolding of `acceptedEpochs`. -/
lemma acceptedEpochs_cons (validSig : NoteMsg → Nat → Bool) (s : NodeState)
    (k : Nat) (m : NoteMsg) (ms : List NoteMsg) :
    acceptedEpochs validSig s k (m :: ms) =
      (if peerNote (if m.id == s.localId then s else evalNote validSig s m) k =
          peerNote s k then [] else [m.epoch]) ++
        acceptedEpochs validSig
          (if m.id == s.localId then s else evalNote validSig s m) k ms := rfl

/-- After any batch of notes, the stored epoch for a peer is the maximum
of the initial stored epoch and the epochs of the accepted notes. -/
lemma mergeNotes_max (validSig : NoteMsg → Nat → Bool) :
    ∀ (msgs : List NoteMsg) (s : NodeState) (k : Nat),
      peerNoteEpoch (mergeNotes validSig s msgs) k =
        maxEpoch (peerNoteEpoch s k) (acceptedEpochs validSig s k msgs) := by
  intro msgs
  induction msgs with
  | nil =>
    intro s k
    have h2 : maxEpoch (peerNoteEpoch s k) [] = peerNoteEpoch s k := by
      rcases peerNoteEpoch s k with _ | e <;> rfl
    show peerNoteEpoch s k = maxEpoch (peerNoteEpoch s k) []
    exact h2.symm
  | cons m ms ih =>
    intro s k
    rw [mergeNotes_cons, acceptedEpochs_cons]
    by_cases hch : peerNote (if m.id == s.localId then s
        else evalNote validSig s m) k = peerNote s k
    · rw [if_pos hch, List.nil_append, ih]
      have : peerNoteEpoch (if m.id == s.localId then s
          else evalNote validSig s m) k = peerNoteEpoch s k := by
        unfold peerNoteEpoch
        rw [hch]
      rw [this]
    · rw [if_neg hch]
      have hnotskip : (if m.id == s.localId then s
          else evalNote validSig s m) = evalNote validSig s m := by
        by_cases hskip : (m.id == s.localId) = true
        · rw [if_pos hskip] at hch
          exact absurd rfl hch
        · rw [if_neg hskip]
      rw [hnotskip] at hch ⊢
      rcases evalNote_note_step validSig s m k with hstep | ⟨hstep, hdom⟩
      · exact absurd hstep hch
      · rw [ih]
        have h1 : peerNoteEpoch (evalNote validSig s m) k = some m.epoch := by
          unfold peerNoteEpoch
          rw [hstep]
          rfl
        rw [h1]
        rcases hold : peerNoteEpoch s k with _ | e
        · rfl
        · have he : e < m.epoch := by
            unfold peerNoteEpoch at hold
            rcases hnt : peerNote s k with _ | nt
            · rw [hnt] at hold
              simp at hold
            · rw [hnt] at hold
              simp at hold
              rw [← hold]
              exact hdom nt hnt
          show maxEpoch (some m.epoch) _ = maxEpoch (some (max e m.epoch)) _
          rw [Nat.max_eq_right (le_of_lt he)]
          simp

/-- C5 (confirmed): for an incoming note with a valid signature for a
known peer with no current accusation, the note is accepted iff the
stored note is absent or has strictly smaller epoch; on acceptance the
stored note is replaced by the incoming one and the peer ends up in the
live set; on rejection the state is unchanged.  Consequently, after any
batch of notes, each peer's stored note epoch is the maximum of the
initial epoch and the epochs of all accepted notes. -/
theorem evalNote_accept_and_max (validSig : NoteMsg → Nat → Bool) :
    (∀ (s : NodeState) (m : NoteMsg) (p : Peer),
      getViewPeer s m.id = some p → p.accusation? = none →
      validSig m p.publicKey = true →
      ((p.recentNote = none ∨ ∃ nt, p.recentNote = some nt ∧ nt.epoch < m.epoch) →
        peerNote (evalNote validSig s m) m.id =
          some { peerId := m.id, epoch := m.epoch, sigR := m.sigR, sigS := m.sigS } ∧
        m.id ∈ (evalNote validSig s m).live) ∧
      (∀ nt, p.recentNote = some nt → m.epoch ≤ nt.epoch →
        evalNote validSig s m = s)) ∧
    (∀ (s : NodeState) (k : Nat) (msgs : List NoteMsg),
      peerNoteEpoch (mergeNotes validSig s msgs) k =
        maxEpoch (peerNoteEpoch s k) (acceptedEpochs validSig s k msgs)) := by
  constructor
  · intro s m p hp hacc hsig
    have hpid : p.id = m.id := getViewPeer_id hp
    constructor
    · intro haccept
      have hacceptb : (match p.recentNote with
          | none => true
          | some currNote => decide (currNote.epoch < m.epoch)) = true := by
        rcases haccept with h | ⟨nt, hnt, hlt⟩
        · rw [h]
        · rw [hnt]
          simpa using hlt
      unfold evalNote
      rw [hp]
      dsimp only
      rw [hsig, if_pos rfl, hacc]
      dsimp only
      rw [hacceptb, if_pos rfl]
      constructor
      · rw [hpid]
        have hbase := peerNote_setPeerNote_same s m.id
          { peerId := m.id, epoch := m.epoch, sigR := m.sigR, sigS := m.sigS } p hp
        split
        · rw [peerNote_addLivePeerId]
          exact hbase
        · exact hbase
      · split
        · exact mem_live_addLivePeerId _ _
        · rename_i hlive
          rw [Bool.not_eq_true, Option.isNone_eq_false_iff, Option.isSome_iff_exists] at hlive
          rcases hlive with ⟨p2, hp2⟩
          have := (getLivePeer_eq hp2).1
          exact List.mem_of_elem_eq_true this
    · intro nt hnt hge
      unfold evalNote
      rw [hp]
      dsimp only
      rw [hsig, if_pos rfl, hacc]
      dsimp only
      rw [hnt]
      dsimp only
      rw [if_neg (by simp; omega)]
  · intro s k msgs
    exact mergeNotes_max validSig msgs s k

/-- Concrete peer for the C5 witness: known, note at epoch 3, not
accused. -/
def c5Peer : Peer :=
  { id := 2, addr := 0, publicKey := 4,
    cert := { id := 2, addr := 0, publicKey := 4, raw := 0 },
    recentNote := some { peerId := 2, epoch := 3, sigR := 0, sigS := 0 },
    accusation? := none }

/-- Concrete state for the C5 witness. -/
def c5State : NodeState :=
  { localId := 1, localAddr := 0, currentEpoch := 1, localNoteEpoch := 1,
    rebuttals := 0, peers := [c5Peer], live := [], timeouts := [],
    gossipData := [] }

/-- A note for peer 2 at epoch 5. -/
def c5Msg : NoteMsg := { id := 2, epoch := 5, sigR := 1, sigS := 1 }

/-- C5 witness: the acceptance conjunct at the concrete scenario, and the
max-epoch equation over a batch with one accepted (epoch 5) and one
rejected (epoch 4) note. -/
theorem evalNote_accept_and_max_witness :
    (((c5Peer.recentNote = none ∨
        ∃ nt, c5Peer.recentNote = some nt ∧ nt.epoch < c5Msg.epoch) →
      peerNote (evalNote (fun _ _ => true) c5State c5Msg) c5Msg.id =
        some { peerId := c5Msg.id, epoch := c5Msg.epoch,
               sigR := c5Msg.sigR, sigS := c5Msg.sigS } ∧
      c5Msg.id ∈ (evalNote (fun _ _ => true) c5State c5Msg).live) ∧
    (∀ nt, c5Peer.recentNote = some nt → c5Msg.epoch ≤ nt.epoch →
      evalNote (fun _ _ => true) c5State c5Msg = c5State)) ∧
    peerNoteEpoch (mergeNotes (fun _ _ => true) c5State
        [c5Msg, { id := 2, epoch := 4, sigR := 0, sigS := 0 }]) 2 =
      maxEpoch (peerNoteEpoch c5State 2)
        (acceptedEpochs (fun _ _ => true) c5State 2
          [c5Msg, { id := 2, epoch := 4, sigR := 0, sigS := 0 }]) :=
  ⟨(evalNote_accept_and_max (fun _ _ => true)).1 c5State c5Msg c5Peer
      (by decide) (by decide) (by decide),
    (evalNote_accept_and_max (fun _ _ => true)).2 c5State 2
      [c5Msg, { id := 2, epoch := 4, sigR := 0, sigS := 0 }]⟩

/-! ## Claim theorems: accusation rank invariant (C4) -/

/-- Modelled from the spec: accuser rank relative to the accused —
"rank = closeness to the accused on that ring, lower (forward) distance
wins" (spec §3, §4.3 step 4).  `rank` assigns each accuser its forward
distance to the accused; `n.isHigherRank(a, b)` holds iff `a` is
strictly closer than `b`.  (`isHigherRank` is outside the provided
sources; this code version keeps a single accusation per peer and its
`isHigherRank` takes no ring argument.) -/
def rankBetter (rank : Nat → Nat) (a b : Nat) : Bool :=
  decide (rank a < rank b)

/-- The stable part of a live lookup: id, public key and stored note.
`evalAccusation` never changes these. -/
def liveCore (s : NodeState) (k : Nat) : Option (Nat × Nat × Option note) :=
  (getLivePeer s k).map (fun p => (p.id, p.publicKey, p.recentNote))

/-- All gates of `evalAccusation` other than the rank comparison: the
message targets `pid` (not the local node), the accused is live with no
fresher note, and the accuser is live with a valid signature and the
predecessor property. -/
def admissibleAcc (validSig : AccMsg → Nat → Bool)
    (isPrev : Nat → Nat → Bool) (s : NodeState) (pid : Nat)
    (m : AccMsg) : Bool :=
  m.accused == pid && !(pid == s.localId) &&
  (match liveCore s pid with
   | none => false
   | some (_, _, noteOpt) =>
     match noteOpt with
     | none => true
     | some nt => decide (nt.epoch < m.epoch)) &&
  (match liveCore s m.accuser with
   | none => false
   | some (qid, qkey, _) => validSig m qkey && isPrev qid pid)

/-- `admissibleAcc` only looks at the local id and the live cores. -/
lemma admissibleAcc_congr (validSig : AccMsg → Nat → Bool)
    (isPrev : Nat → Nat → Bool) (s s2 : NodeState) (pid : Nat) (m : AccMsg)
    (hloc : s.localId = s2.localId)
    (hcore : ∀ k, liveCore s k = liveCore s2 k) :
    admissibleAcc validSig isPrev s pid m =
      admissibleAcc validSig isPrev s2 pid m := by
  unfold admissibleAcc
  rw [hloc, hcore pid, hcore m.accuser]

/-- Every branch of `evalAccusation` is the identity, the self-rebuttal
epoch bump, or a `setPeerAccusation` (possibly with a new timer). -/
lemma evalAcc_shape (v : AccMsg → Nat → Bool) (hr ip : Nat → Nat → Bool)
    (s : NodeState) (m : AccMsg) :
    evalAccusation v hr ip s m = s ∨
    evalAccusation v hr ip s m =
      { s with currentEpoch := m.epoch + 1, localNoteEpoch := m.epoch + 1,
               rebuttals := s.rebuttals + 1 } ∨
    ∃ k a, evalAccusation v hr ip s m = setPeerAccusation s k a ∨
      evalAccusation v hr ip s m =
        startTimer (setPeerAccusation s k a) m.accused := by
  unfold evalAccusation
  by_cases h0 : (m.accused == s.localId) = true
  · rw [if_pos h0]
    right; left; rfl
  · rw [if_neg h0]
    rcases hp : getLivePeer s m.accused with _ | p
    · left; rfl
    · dsimp only
      split
      · rcases hq : getLivePeer s m.accuser with _ | q
        · left; rfl
        · dsimp only
          split
          · split
            · split
              · split
                · right; right
                  exact ⟨p.id, _, Or.inl rfl⟩
                · right; right
                  exact ⟨p.id, _, Or.inr rfl⟩
              · left; rfl
            · left; rfl
          · left; rfl
      · left; rfl

lemma liveCore_setPeerAccusation (s : NodeState) (k2 : Nat)
    (a : accusation) (k : Nat) :
    liveCore (setPeerAccusation s k2 a) k = liveCore s k := by
  unfold liveCore getLivePeer
  have hlive : (setPeerAccusation s k2 a).live = s.live := rfl
  rw [hlive]
  by_cases hc : s.live.contains k
  · rw [if_pos hc, if_pos hc]
    unfold setPeerAccusation
    rw [getViewPeer_updPeers s k2 k
      (fun q => { q with accusation? := some a }) (fun q => rfl)]
    by_cases hk : k = k2
    · rw [if_pos hk, hk]
      rcases getViewPeer s k2 with _ | p <;> rfl
    · rw [if_neg hk]
  · rw [if_neg hc, if_neg hc]

lemma liveCore_startTimer (s : NodeState) (k2 k : Nat) :
    liveCore (startTimer s k2) k = liveCore s k := rfl

/-- `evalAccusation` never changes any live core. -/
lemma liveCore_evalAccusation (v : AccMsg → Nat → Bool)
    (hr ip : Nat → Nat → Bool) (s : NodeState) (m : AccMsg) (k : Nat) :
    liveCore (evalAccusation v hr ip s m) k = liveCore s k := by
  rcases evalAcc_shape v hr ip s m with h | h | ⟨k2, a, h | h⟩ <;> rw [h]
  · rfl
  · exact liveCore_setPeerAccusation s k2 a k
  · rw [liveCore_startTimer]
    exact liveCore_setPeerAccusation s k2 a k

/-- `evalAccusation` never changes the local id. -/
lemma localId_evalAccusation (v : AccMsg → Nat → Bool)
    (hr ip : Nat → Nat → Bool) (s : NodeState) (m : AccMsg) :
    (evalAccusation v hr ip s m).localId = s.localId := by
  rcases evalAcc_shape v hr ip s m with h | h | ⟨k2, a, h | h⟩ <;> rw [h] <;> rfl

lemma peerAcc_setPeerAccusation_other (s : NodeState) (k : Nat)
    (a : accusation) (j : Nat) (hj : j ≠ k) :
    peerAcc (setPeerAccusation s k a) j = peerAcc s j := by
  unfold peerAcc setPeerAccusation
  rw [getViewPeer_updPeers s k j
    (fun q => { q with accusation? := some a }) (fun q => rfl), if_neg hj]

/-- When every gate passes (including the rank gate), `evalAccusation`
records the accusation built from the message, with the live accuser's
id as accuser. -/
lemma evalAcc_stores (v : AccMsg → Nat → Bool) (rank : Nat → Nat)
    (ip : Nat → Nat → Bool) (s : NodeState) (m : AccMsg) (pid : Nat)
    (p q : Peer)
    (hm : m.accused = pid) (hlocal : pid ≠ s.localId)
    (hp : getLivePeer s pid = some p)
    (hstale : p.recentNote = none ∨ ∃ nt, p.recentNote = some nt ∧ nt.epoch < m.epoch)
    (hq : getLivePeer s m.accuser = some q)
    (hsig : v m q.publicKey = true) (hprev : ip q.id pid = true)
    (hrank : p.accusation? = none ∨ ∃ old, p.accusation? = some old ∧
      rank m.accuser < rank old.accuser) :
    peerAcc (evalAccusation v (rankBetter rank) ip s m) pid =
      some { peerId := pid, epoch := m.epoch, accuser := m.accuser,
             sigR := m.sigR, sigS := m.sigS } := by
  have hpid : p.id = pid := getViewPeer_id (getLivePeer_eq hp).2
  have hqid : q.id = m.accuser := getViewPeer_id (getLivePeer_eq hq).2
  have hview : getViewPeer s pid = some p := (getLivePeer_eq hp).2
  unfold evalAccusation
  rw [if_neg (by simp; omega)]
  rw [hm, hp]
  dsimp only
  have hstaleb : (match p.recentNote with
      | none => true
      | some nt => decide (nt.epoch < m.epoch)) = true := by
    rcases hstale with h | ⟨nt, hnt, hlt⟩
    · rw [h]
    · rw [hnt]
      simpa using hlt
  rw [hstaleb, if_pos rfl, hq]
  dsimp only
  have hrankb : (match p.accusation? with
      | none => true
      | some acc => rankBetter rank q.id acc.accuser) = true := by
    rcases hrank with h | ⟨old, hold, hlt⟩
    · rw [h]
    · rw [hold]
      unfold rankBetter
      rw [hqid]
      simpa using hlt
  rw [hrankb, if_pos rfl, hsig, if_pos rfl]
  rw [hqid] at hprev
  rw [hpid, hqid, hprev, if_pos rfl]
  have hkey : peerAcc (setPeerAccusation s pid
      { peerId := pid, epoch := m.epoch, accuser := m.accuser,
        sigR := m.sigR, sigS := m.sigS }) pid =
      some { peerId := pid, epoch := m.epoch, accuser := m.accuser,
             sigR := m.sigR, sigS := m.sigS } :=
    peerAcc_setPeerAccusation s pid _ p hview
  split
  · exact hkey
  · rw [peerAcc_startTimer]
    exact hkey

/-- When the rank gate rejects the newcomer, `evalAccusation` drops it:
the state is unchanged. -/
lemma evalAcc_rank_drop (v : AccMsg → Nat → Bool) (rank : Nat → Nat)
    (ip : Nat → Nat → Bool) (s : NodeState) (m : AccMsg)
    (p q : Peer) (old : accusation)
    (hlocal : m.accused ≠ s.localId)
    (hp : getLivePeer s m.accused = some p)
    (hq : getLivePeer s m.accuser = some q)
    (hold : p.accusation? = some old)
    (hnot : ¬ rank m.accuser < rank old.accuser) :
    evalAccusation v (rankBetter rank) ip s m = s := by
  have hqid : q.id = m.accuser := getViewPeer_id (getLivePeer_eq hq).2
  unfold evalAccusation
  rw [if_neg (by simp [hlocal])]
  rw [hp]
  dsimp only
  by_cases hstale : (match p.recentNote with
      | none => true
      | some nt => decide (nt.epoch < m.epoch)) = true
  · rw [hstale, if_pos rfl, hq]
    dsimp only
    rw [hold]
    dsimp only
    rw [if_neg ?_]
    unfold rankBetter
    rw [hqid]
    simpa using hnot
  · rw [Bool.not_eq_true] at hstale
    rw [hstale, if_neg (by simp)]

/-- One `evalAccusation` step, seen through the stored accusation of an
arbitrary key: either untouched, or replaced by the message's accusation,
which strictly out-ranks whatever was stored. -/
lemma evalAcc_acc_step (v : AccMsg → Nat → Bool) (rank : Nat → Nat)
    (ip : Nat → Nat → Bool) (s : NodeState) (m : AccMsg) (pid : Nat) :
    peerAcc (evalAccusation v (rankBetter rank) ip s m) pid = peerAcc s pid ∨
    (peerAcc (evalAccusation v (rankBetter rank) ip s m) pid =
        some { peerId := pid, epoch := m.epoch, accuser := m.accuser,
               sigR := m.sigR, sigS := m.sigS } ∧
      ∀ old, peerAcc s pid = some old → rank m.accuser < rank old.accuser) := by
  unfold evalAccusation
  by_cases h0 : (m.accused == s.localId) = true
  · rw [if_pos h0]
    exact Or.inl rfl
  · rw [if_neg h0]
    rcases hp : getLivePeer s m.accused with _ | p
    · exact Or.inl rfl
    · dsimp only
      have hpid : p.id = m.accused := getViewPeer_id (getLivePeer_eq hp).2
      have hview : getViewPeer s m.accused = some p := (getLivePeer_eq hp).2
      split
      · rcases hq : getLivePeer s m.accuser with _ | q
        · exact Or.inl rfl
        · dsimp only
          have hqid : q.id = m.accuser := getViewPeer_id (getLivePeer_eq hq).2
          split
          · rename_i hrankOk
            split
            · split
              · rw [hpid, hqid]
                by_cases hpidk : pid = m.accused
                · right
                  rw [hpidk]
                  have hkey : peerAcc (setPeerAccusation s m.accused
                      { peerId := m.accused, epoch := m.epoch,
                        accuser := m.accuser,
                        sigR := m.sigR, sigS := m.sigS }) m.accused =
                      some { peerId := m.accused, epoch := m.epoch,
                             accuser := m.accuser,
                             sigR := m.sigR, sigS := m.sigS } :=
                    peerAcc_setPeerAccusation s m.accused _ p hview
                  constructor
                  · split
                    · exact hkey
                    · rw [peerAcc_startTimer]
                      exact hkey
                  · intro old holdacc
                    have hacc2 : p.accusation? = some old := by
                      unfold peerAcc at holdacc
                      rw [hview] at holdacc
                      exact holdacc
                    rw [hacc2] at hrankOk
                    have hrb : rankBetter rank q.id old.accuser = true := hrankOk
                    unfold rankBetter at hrb
                    rw [hqid] at hrb
                    simpa using hrb
                · left
                  have hkey := peerAcc_setPeerAccusation_other s m.accused
                    { peerId := m.accused, epoch := m.epoch,
                      accuser := m.accuser,
                      sigR := m.sigR, sigS := m.sigS } pid (by omega)
                  split
                  · exact hkey
                  · rw [peerAcc_startTimer]
                    exact hkey
              · exact Or.inl rfl
            · exact Or.inl rfl
          · exact Or.inl rfl
      · exact Or.inl rfl

lemma mergeAccusations_cons (v : AccMsg → Nat → Bool)
    (hr ip : Nat → Nat → Bool) (s : NodeState) (m : AccMsg)
    (ms : List AccMsg) :
    mergeAccusations v hr ip s (m :: ms) =
      mergeAccusations v hr ip (evalAccusation v hr ip s m) ms := rfl

/-- Once an accusation is stored, the fold keeps one stored, and its
accuser's rank only improves (never degrades). -/
lemma mergeAcc_mono (v : AccMsg → Nat → Bool) (rank : Nat → Nat)
    (ip : Nat → Nat → Bool) :
    ∀ (msgs : List AccMsg) (s : NodeState) (pid : Nat) (old : accusation),
      peerAcc s pid = some old →
      ∃ final, peerAcc (mergeAccusations v (rankBetter rank) ip s msgs) pid =
          some final ∧ rank final.accuser ≤ rank old.accuser := by
  intro msgs
  induction msgs with
  | nil =>
    intro s pid old h
    exact ⟨old, h, Nat.le_refl _⟩
  | cons m ms ih =>
    intro s pid old h
    rw [mergeAccusations_cons]
    rcases evalAcc_acc_step v rank ip s m pid with hstep | ⟨hstep, hdom⟩
    · rcases ih (evalAccusation v (rankBetter rank) ip s m) pid old
        (by rw [hstep]; exact h) with ⟨final, hfin, hle⟩
      exact ⟨final, hfin, hle⟩
    · rcases ih (evalAccusation v (rankBetter rank) ip s m) pid _ hstep with
        ⟨final, hfin, hle⟩
      refine ⟨final, hfin, ?_⟩
      have := hdom old h
      simp only at hle
      omega

/-- Rank domination: the finally stored accusation's accuser ranks at
least as well as every admissible accuser seen in the batch. -/
lemma mergeAcc_dominates (v : AccMsg → Nat → Bool) (rank : Nat → Nat)
    (ip : Nat → Nat → Bool) :
    ∀ (msgs : List AccMsg) (s s0 : NodeState) (pid : Nat),
      s.localId = s0.localId → (∀ k, liveCore s k = liveCore s0 k) →
      ∀ m ∈ msgs, admissibleAcc v ip s0 pid m = true →
      ∀ final,
        peerAcc (mergeAccusations v (rankBetter rank) ip s msgs) pid =
          some final →
        rank final.accuser ≤ rank m.accuser := by
  intro msgs
  induction msgs with
  | nil =>
    intro s s0 pid _ _ m hm
    exact absurd hm (List.not_mem_nil m)
  | cons m0 ms ih =>
    intro s s0 pid hloc hcore m hm hadm final hfin
    rw [mergeAccusations_cons] at hfin
    have hloc1 : (evalAccusation v (rankBetter rank) ip s m0).localId =
        s0.localId := by
      rw [localId_evalAccusation]
      exact hloc
    have hcore1 : ∀ k, liveCore (evalAccusation v (rankBetter rank) ip s m0) k =
        liveCore s0 k := by
      intro k
      rw [liveCore_evalAccusation]
      exact hcore k
    rcases List.mem_cons.1 hm with hm0 | hmtail
    · subst hm0
      have hadmS : admissibleAcc v ip s pid m = true := by
        rw [admissibleAcc_congr v ip s s0 pid m hloc hcore]
        exact hadm
      unfold admissibleAcc at hadmS
      rw [Bool.and_eq_true, Bool.and_eq_true, Bool.and_eq_true] at hadmS
      obtain ⟨⟨⟨hacc, hloc2⟩, hnote⟩, haccuser⟩ := hadmS
      have hacc2 : m.accused = pid := by simpa using hacc
      have hloc3 : pid ≠ s.localId := by simpa using hloc2
      rcases hlc : liveCore s pid with _ | tpl
      · rw [hlc] at hnote
        simp at hnote
      · rcases Option.map_eq_some'.1 hlc with ⟨p, hp, hptpl⟩
        rcases hlcq : liveCore s m.accuser with _ | tplq
        · rw [hlcq] at haccuser
          simp at haccuser
        · rcases Option.map_eq_some'.1 hlcq with ⟨q, hq, hqtpl⟩
          rw [hlcq] at haccuser
          rw [← hqtpl] at haccuser
          dsimp only at haccuser
          rw [Bool.and_eq_true] at haccuser
          obtain ⟨hsig, hprev⟩ := haccuser
          have hstale : p.recentNote = none ∨
              ∃ nt, p.recentNote = some nt ∧ nt.epoch < m.epoch := by
            rw [hlc, ← hptpl] at hnote
            dsimp only at hnote
            rcases hrn : p.recentNote with _ | nt
            · exact Or.inl rfl
            · rw [hrn] at hnote
              right
              exact ⟨nt, rfl, by simpa using hnote⟩
          rcases haccold : p.accusation? with _ | old
          · have hstored := evalAcc_stores v rank ip s m pid p q hacc2
              hloc3 hp hstale hq hsig hprev (Or.inl haccold)
            rcases mergeAcc_mono v rank ip ms _ pid _ hstored with
              ⟨final2, hfin2, hle2⟩
            rw [hfin] at hfin2
            have heq : final = final2 := Option.some_injective _ hfin2
            rw [heq]
            simpa using hle2
          · by_cases hlt : rank m.accuser < rank old.accuser
            · have hstored := evalAcc_stores v rank ip s m pid p q hacc2
                hloc3 hp hstale hq hsig hprev (Or.inr ⟨old, haccold, hlt⟩)
              rcases mergeAcc_mono v rank ip ms _ pid _ hstored with
                ⟨final2, hfin2, hle2⟩
              rw [hfin] at hfin2
              have heq : final = final2 := Option.some_injective _ hfin2
              rw [heq]
              simpa using hle2
            · have hpm : getLivePeer s m.accused = some p := by
                rw [hacc2]
                exact hp
              have hlocm : m.accused ≠ s.localId := by
                rw [hacc2]
                exact hloc3
              have hdropeq := evalAcc_rank_drop v rank ip s m p q old hlocm
                hpm hq haccold hlt
              rw [hdropeq] at hfin
              have holdstored : peerAcc s pid = some old := by
                unfold peerAcc
                rw [(getLivePeer_eq hp).2]
                exact haccold
              rcases mergeAcc_mono v rank ip ms s pid old holdstored with
                ⟨final2, hfin2, hle2⟩
              rw [hfin] at hfin2
              have heq : final = final2 := Option.some_injective _ hfin2
              rw [heq]
              omega
    · exact ih (evalAccusation v (rankBetter rank) ip s m0) s0 pid hloc1
        hcore1 m hmtail hadm final hfin

/-- Accused peer 10 (live, no note, no accusation) and two live
potential accusers, 5 and 2, with rank given by their id (lower is
closer to the accused). -/
def c4State : NodeState :=
  { localId := 1, localAddr := 0, currentEpoch := 1, localNoteEpoch := 1,
    rebuttals := 0,
    peers := [{ id := 10, addr := 0, publicKey := 3,
                cert := { id := 10, addr := 0, publicKey := 3, raw := 0 },
                recentNote := none, accusation? := none },
              { id := 5, addr := 0, publicKey := 7,
                cert := { id := 5, addr := 0, publicKey := 7, raw := 0 },
                recentNote := none, accusation? := none },
              { id := 2, addr := 0, publicKey := 8,
                cert := { id := 2, addr := 0, publicKey := 8, raw := 0 },
                recentNote := none, accusation? := none }],
    live := [10, 5, 2], timeouts := [], gossipData := [] }

/-- A valid accusation of 10 by the far accuser 5. -/
def c4Msg1 : AccMsg :=
  { accused := 10, accuser := 5, epoch := 3, sigR := 1, sigS := 0 }

/-- An accusation of 10 by the closer accuser 2, with an invalid
signature. -/
def c4Msg2 : AccMsg :=
  { accused := 10, accuser := 2, epoch := 3, sigR := 0, sigS := 0 }

/-- C4 counterexample: first a valid accusation by the far accuser 5 is
stored; then one by the strictly closer accuser 2 arrives but carries a
bad signature, passes the rank gate and is dropped at the signature
check.  The stored accusation still names accuser 5, whose rank (5) is
*worse* than that of the previously seen accuser 2 — refuting the claim
that the stored accuser ranks no worse than every previously seen
accuser for the pair. -/
theorem accusation_rank_cex :
    peerAcc (mergeAccusations (fun m _ => m.sigR == 1)
        (rankBetter (fun i => i)) (fun _ _ => true) c4State
        [c4Msg1, c4Msg2]) 10 =
      some { peerId := 10, epoch := 3, accuser := 5, sigR := 1, sigS := 0 } ∧
    c4Msg2 ∈ [c4Msg1, c4Msg2] ∧ c4Msg2.accused = 10 ∧
    (fun i => i : Nat → Nat) c4Msg2.accuser < (fun i => i : Nat → Nat) 5 := by
  refine ⟨by decide, by decide, by decide, by decide⟩

/-- C4 (amended): the code keeps at most one accusation per peer (a
single `Option` slot — there is no per-ring storage in this version), so
"at most one per (peer, ring)" holds degenerately.  A newcomer whose
accuser does not strictly out-rank the stored accuser is dropped with no
state change.  The stored accusation's accuser ranks at least as well as
every previously seen *admissible* accuser for that peer — one whose
accusation passed the epoch/liveness/signature/predecessor gates; an
accuser rejected by those gates (e.g. an invalid signature) may out-rank
the stored one (`accusation_rank_cex`). -/
theorem accusation_rank_invariant (validSig : AccMsg → Nat → Bool)
    (isPrev : Nat → Nat → Bool) (rank : Nat → Nat) :
    (∀ (s : NodeState) (m : AccMsg) (p q : Peer) (old : accusation),
      m.accused ≠ s.localId →
      getLivePeer s m.accused = some p →
      getLivePeer s m.accuser = some q →
      p.accusation? = some old →
      ¬ rank m.accuser < rank old.accuser →
      evalAccusation validSig (rankBetter rank) isPrev s m = s) ∧
    (∀ (s0 : NodeState) (msgs : List AccMsg) (pid : Nat) (m : AccMsg),
      m ∈ msgs → admissibleAcc validSig isPrev s0 pid m = true →
      ∀ final,
        peerAcc (mergeAccusations validSig (rankBetter rank) isPrev
          s0 msgs) pid = some final →
        rank final.accuser ≤ rank m.accuser) := by
  constructor
  · intro s m p q old hlocal hp hq hold hnot
    exact evalAcc_rank_drop validSig rank isPrev s m p q old hlocal hp hq
      hold hnot
  · intro s0 msgs pid m hm hadm final hfin
    exact mergeAcc_dominates validSig rank isPrev msgs s0 s0 pid rfl
      (fun k => rfl) m hm hadm final hfin

/-- The drop-scenario state: accused 10 already carries an accusation by
the close accuser 2. -/
def c4DropState : NodeState :=
  { localId := 1, localAddr := 0, currentEpoch := 1, localNoteEpoch := 1,
    rebuttals := 0,
    peers := [{ id := 10, addr := 0, publicKey := 3,
                cert := { id := 10, addr := 0, publicKey := 3, raw := 0 },
                recentNote := none,
                accusation? := some { peerId := 10, epoch := 2, accuser := 2,
                                      sigR := 1, sigS := 0 } },
              { id := 5, addr := 0, publicKey := 7,
                cert := { id := 5, addr := 0, publicKey := 7, raw := 0 },
                recentNote := none, accusation? := none },
              { id := 2, addr := 0, publicKey := 8,
                cert := { id := 2, addr := 0, publicKey := 8, raw := 0 },
                recentNote := none, accusation? := none }],
    live := [10, 5, 2], timeouts := [10], gossipData := [] }

/-- C4 witness: (i) a newcomer from the farther accuser 5 is dropped
when 10 already holds an accusation by the closer accuser 2; (ii) in the
counterexample batch, the stored accuser 5 ranks no worse than the
admissible accuser m1 (itself). -/
theorem accusation_rank_invariant_witness :
    evalAccusation (fun m _ => m.sigR == 1) (rankBetter (fun i => i))
        (fun _ _ => true) c4DropState c4Msg1 = c4DropState ∧
    (fun i => i : Nat → Nat) 5 ≤ (fun i => i : Nat → Nat) c4Msg1.accuser :=
  ⟨(accusation_rank_invariant (fun m _ => m.sigR == 1) (fun _ _ => true)
      (fun i => i)).1 c4DropState c4Msg1
      { id := 10, addr := 0, publicKey := 3,
        cert := { id := 10, addr := 0, publicKey := 3, raw := 0 },
        recentNote := none,
        accusation? := some { peerId := 10, epoch := 2, accuser := 2,
                              sigR := 1, sigS := 0 } }
      { id := 5, addr := 0, publicKey := 7,
        cert := { id := 5, addr := 0, publicKey := 7, raw := 0 },
        recentNote := none, accusation? := none }
      { peerId := 10, epoch := 2, accuser := 2, sigR := 1, sigS := 0 }
      (by decide) (by decide) (by decide) (by decide) (by decide),
    (accusation_rank_invariant (fun m _ => m.sigR == 1) (fun _ _ => true)
      (fun i => i)).2 c4State [c4Msg1, c4Msg2] 10 c4Msg1
      (by decide) (by decide)
      { peerId := 10, epoch := 3, accuser := 5, sigR := 1, sigS := 0 }
      (by decide)⟩

/-! ## Claim theorem: `AppendGossipData` (C10) -/

/-- C10 (confirmed): `AppendGossipData` reads into the nil, zero-length
buffer, so — under the `io.Reader` contract, which caps the byte count
at the buffer length, here `numRead ≤ 0` — it always returns a non-nil
error (the reader's own error if any, else `errNoData`) and leaves the
state, in particular `gossipDataMap`, unchanged. -/
theorem appendGossipData_never_stores (s : NodeState) (id : Nat)
    (numRead : Int) (readErr : Option String) (hread : numRead ≤ 0) :
    AppendGossipData s id numRead readErr =
        (s, if readErr.isSome then readErr else some errNoData) ∧
      (AppendGossipData s id numRead readErr).2.isSome := by
  have h1 : AppendGossipData s id numRead readErr =
      (s, if readErr.isSome then readErr else some errNoData) := by
    unfold AppendGossipData
    by_cases h : readErr.isSome
    · rw [if_pos h, if_pos h]
    · rw [if_neg h, if_pos hread, if_neg h]
  refine ⟨h1, ?_⟩
  rw [h1]
  by_cases h : readErr.isSome
  · simp [h]
  · simp [h]

/-- C10 witness: a well-behaved reader returning `(0, nil)` on the empty
buffer makes `AppendGossipData` fail with `errNoData` and leave the map
alone. -/
theorem appendGossipData_never_stores_witness :
    AppendGossipData
        { localId := 1, localAddr := 0, currentEpoch := 1,
          localNoteEpoch := 1, rebuttals := 0, peers := [], live := [],
          timeouts := [], gossipData := [] } 7 0 none =
        ({ localId := 1, localAddr := 0, currentEpoch := 1,
           localNoteEpoch := 1, rebuttals := 0, peers := [], live := [],
           timeouts := [], gossipData := [] },
         if (none : Option String).isSome then none else some errNoData) ∧
      (AppendGossipData
        { localId := 1, localAddr := 0, currentEpoch := 1,
          localNoteEpoch := 1, rebuttals := 0, peers := [], live := [],
          timeouts := [], gossipData := [] } 7 0 none).2.isSome :=
  appendGossipData_never_stores _ 7 0 none (by decide)

end Ifrit
